import Mathlib

/-!
Selector expressions of libbeat (package outputs/outil).

A shallow embedding of `outputs/outil/select.go`.  Go values of type
`(string, error)` are pairs `String × Option Error`, a nil `*beat.Event` is
`none`, and each `sel` method is a function of the `sel` methods of the
sub-expressions it holds, as the Go method is of the interface values in its
fields.
-/

set_option autoImplicit false

namespace beat

/-- Values stored in the fields of an event (`interface{}` held by `common.MapStr`),
by dynamic type: `obj` is a `common.MapStr`, `strMap` a `map[string]string` and
`ifaceMap` a `map[string]interface{}`, three types a type switch tells apart. -/
inductive Value where
  | str (s : String)
  | int (i : Int)
  | bool (b : Bool)
  | obj (m : List (String × Value))
  | strMap (m : List (String × String))
  | ifaceMap (m : List (String × Value))

/-- The record `beat.Event`: a timestamp, metadata and fields.  `Meta` is `none`
when it is the nil map, as in an event built without metadata; `Fields` is not
nil in any event of the sources. -/
structure Event where
  Timestamp : Int
  Meta : Option (List (String × Value))
  Fields : List (String × Value)

end beat

namespace outil

open beat

/-- Go `error` values, identified by their message. -/
abbrev Error := String

/-- The result `(string, error)` of a `sel` call; `none` is the nil error. -/
abbrev SelResult := String × Option Error

/-- The method set of interface `SelectorExpr`: `sel(evt *beat.Event) (string, error)`. -/
abbrev SelFn := Option Event → SelResult

/-- Go `map[string]string`; a key that occurs twice is read at its first entry. -/
abbrev GoMap := List (String × String)

/-- Go map indexing `m[k]`: the zero value `""` for an absent key. -/
def GoMap.index (m : GoMap) (k : String) : String :=
  (m.lookup k).getD ""

/-- Go `len(m) > 0`. -/
def GoMap.nonEmpty (m : GoMap) : Bool :=
  !m.isEmpty

/-- Modelled from the spec: `fmtstr.EventFormatString` (package common/fmtstr is
not part of the sources).  Only the two methods `select.go` calls are kept:
`IsConst`, true when the template has no event-field reference, and `Run`,
which renders the template against an event and fails when a referenced field
is absent. -/
structure EventFormatString where
  IsConst : Bool
  Run : Option Event → String × Option Error

/-- Modelled from the spec: `conditions.Condition` (package conditions is not part
of the sources), a predicate `Check` evaluated against the event. -/
structure Condition where
  Check : Option Event → Bool

/-! ## The `sel` methods -/

/-- Method `(s *emptySelector) sel`. -/
def emptySelector.sel : SelFn :=
  fun _ => ("", none)

/-- The `for` loop of `(s *listSelector) sel`, started at index `i`.  Next to the
returned pair it gives the indices of the sub-selectors whose `sel` was
called, in call order. -/
def listSelector.loop (evt : Option Event) : List SelFn → Nat → SelResult × List Nat
  | [], _ => (("", none), [])
  | sub :: rest, i =>
    let r := sub evt
    if r.2.isSome then
      ((r.1, r.2), [i])
    else if r.1 ≠ "" then
      ((r.1, none), [i])
    else
      let q := listSelector.loop evt rest (i + 1)
      (q.1, i :: q.2)

/-- Method `(s *listSelector) sel`. -/
def listSelector.sel (selectors : List SelFn) : SelFn :=
  fun evt => (listSelector.loop evt selectors 0).1

/-- Method `(s *condSelector) sel`, together with a flag telling whether
`s.s.sel` was called. -/
def condSelector.run (s : SelFn) (cond : Condition) (evt : Option Event) : SelResult × Bool :=
  if !cond.Check evt then
    (("", none), false)
  else
    (s evt, true)

/-- Method `(s *condSelector) sel`. -/
def condSelector.sel (s : SelFn) (cond : Condition) : SelFn :=
  fun evt => (condSelector.run s cond evt).1

/-- Method `(s *constSelector) sel`. -/
def constSelector.sel (s : String) : SelFn :=
  fun _ => (s, none)

/-- Method `(s *fmtSelector) sel`. -/
def fmtSelector.sel (f : EventFormatString) (otherwise : String) : SelFn :=
  fun evt =>
    let r := f.Run evt
    if r.2.isSome then
      (otherwise, none)
    else if r.1 = "" then
      (otherwise, none)
    else
      (r.1, none)

/-- Method `(s *mapSelector) sel`; the fields `from` and `to` are `frm` and `table`. -/
def mapSelector.sel (frm : SelFn) (otherwise : String) (table : GoMap) : SelFn :=
  fun evt =>
    let r := frm evt
    match r.2 with
    | some err =>
      if otherwise = "" then ("", some err) else (otherwise, none)
    | none =>
      if r.1 = "" then
        (otherwise, none)
      else
        let n := table.index r.1
        if n = "" then (otherwise, none) else (n, none)

/-! ## Expression trees -/

/-- The implementations of interface `SelectorExpr` in package outil:
`emptySelector`, `listSelector`, `condSelector`, `constSelector`, `fmtSelector`
and `mapSelector`.  The only `emptySelector` value is `nilSelector`. -/
inductive SelectorExpr where
  | empty
  | list (selectors : List SelectorExpr)
  | cond (s : SelectorExpr) (cond : Condition)
  | const (s : String)
  | fmt (f : EventFormatString) (otherwise : String)
  | map (frm : SelectorExpr) (otherwise : String) (table : GoMap)

mutual
/-- Dynamic dispatch of `sel` on an expression tree. -/
def SelectorExpr.sel : SelectorExpr → SelFn
  | .empty, evt => emptySelector.sel evt
  | .list selectors, evt => listSelector.sel (SelectorExpr.selAll selectors) evt
  | .cond s c, evt => condSelector.sel (fun e => SelectorExpr.sel s e) c evt
  | .const s, evt => constSelector.sel s evt
  | .fmt f otherwise, evt => fmtSelector.sel f otherwise evt
  | .map frm otherwise table, evt =>
    mapSelector.sel (fun e => SelectorExpr.sel frm e) otherwise table evt
/-- The `sel` methods of a slice of expressions. -/
def SelectorExpr.selAll : List SelectorExpr → List SelFn
  | [] => []
  | e :: es => (fun evt => SelectorExpr.sel e evt) :: SelectorExpr.selAll es
end

/-! ## Constructors and the selector -/

/-- The package variable `nilSelector`, the one `emptySelector` value. -/
def nilSelector : SelectorExpr := .empty

/-- The comparison `sel == nilSelector` on interface values. -/
def SelectorExpr.isNilSelector : SelectorExpr → Bool
  | .empty => true
  | _ => false

/-- The type assertion `s.sel.(*constSelector)`. -/
def SelectorExpr.isConstSelector : SelectorExpr → Bool
  | .const _ => true
  | _ => false

def EmptySelectorExpr : SelectorExpr := nilSelector

def ConstSelectorExpr (s : String) : SelectorExpr := .const s

def FmtSelectorExpr (fmt : EventFormatString) (fallback : String) : SelectorExpr :=
  .fmt fmt fallback

def ConcatSelectorExpr (s : List SelectorExpr) : SelectorExpr := .list s

def ConditionalSelectorExpr (s : SelectorExpr) (cond : Condition) : SelectorExpr :=
  .cond s cond

def LookupSelectorExpr (s : SelectorExpr) (table : GoMap) (fallback : String) : SelectorExpr :=
  .map s fallback table

/-- The struct `Selector`.  Its zero value, whose `sel` is the nil interface, is
only returned next to an error and is not represented. -/
structure Selector where
  sel : SelectorExpr

def MakeSelector (es : List SelectorExpr) : Selector :=
  match es with
  | [] => ⟨nilSelector⟩
  | [e] => ⟨e⟩
  | _ => ⟨ConcatSelectorExpr es⟩

/-- Method `Selector.Select`. -/
def Selector.Select (s : Selector) (evt : Option Event) : SelResult :=
  s.sel.sel evt

/-- Method `Selector.IsConst`. -/
def Selector.IsConst (s : Selector) : Bool :=
  s.sel.isNilSelector || s.sel.isConstSelector

/-- The struct `Settings`. -/
structure Settings where
  Key : String
  MultiKey : String
  EnableSingleOnly : Bool
  FailEmpty : Bool

/-- Modelled from the spec: the functions of packages common, fmtstr and
conditions that `select.go` calls (none of them is part of the sources), taken
as parameters.  `StringOf cfg name` is `cfg.String(name, -1)`, `Child cfg name`
is `cfg.Child(name, -1)`, `UnpackTable sub` is `sub.Unpack(&table)` for a
`[]*common.Config`, `UnpackMappings cfg` is `cfg.Unpack(&mapping)` read at its
`Table`, `UnpackCond sub` is `sub.Unpack(&condConfig)`, and `NewCondition` may
return a nil condition. -/
structure ConfigAPI (Config CondConfig : Type) where
  HasField : Config → String → Bool
  StringOf : Config → String → Except Error String
  Child : Config → String → Except Error Config
  UnpackTable : Config → Except Error (List Config)
  UnpackMappings : Config → Except Error GoMap
  UnpackCond : Config → Except Error CondConfig
  NewCondition : CondConfig → Except Error (Option Condition)
  CompileEvent : String → Except Error EventFormatString
  PathOf : Config → String → String
  Path : Config → String

section build

variable {Config CondConfig : Type}

/-- Step 2 of `buildSingle`: the optional `default` value. -/
def buildSingle.otherwise (api : ConfigAPI Config CondConfig) (cfg : Config) :
    Except Error String :=
  if api.HasField cfg "default" then api.StringOf cfg "default" else .ok ""

/-- Step 3 of `buildSingle`: the optional `mappings` table, nil when absent. -/
def buildSingle.mapping (api : ConfigAPI Config CondConfig) (cfg : Config) :
    Except Error GoMap :=
  if api.HasField cfg "mappings" then api.UnpackMappings cfg else .ok []

/-- Step 4 of `buildSingle`: the optional `when` condition, nil when absent. -/
def buildSingle.cond (api : ConfigAPI Config CondConfig) (cfg : Config) :
    Except Error (Option Condition) :=
  if api.HasField cfg "when" then
    match api.Child cfg "when" with
    | .error err => .error err
    | .ok sub =>
      match api.UnpackCond sub with
      | .error err => .error err
      | .ok condConfig => api.NewCondition condConfig
  else .ok none

/-- Step 5 of `buildSingle` up to the conditional: the expression `sel` built
from the compiled template, the default and the table. -/
def buildSingle.selector (evtfmt : EventFormatString) (otherwise : String) (table : GoMap) :
    Except Error SelectorExpr :=
  if table.nonEmpty then
    if evtfmt.IsConst then
      let r := evtfmt.Run none
      match r.2 with
      | some err => .error err
      | none =>
        let str := table.index r.1
        let str := if str = "" then otherwise else str
        if str = "" then .ok nilSelector else .ok (ConstSelectorExpr str)
    else
      .ok (.map (FmtSelectorExpr evtfmt "") otherwise table)
  else
    if evtfmt.IsConst then
      let r := evtfmt.Run none
      match r.2 with
      | some err => .error err
      | none =>
        if r.1 = "" then .ok nilSelector else .ok (ConstSelectorExpr r.1)
    else
      .ok (FmtSelectorExpr evtfmt otherwise)

/-- The end of `buildSingle`: `if cond != nil && sel != nilSelector`. -/
def buildSingle.wrap (sel : SelectorExpr) (cond : Option Condition) : SelectorExpr :=
  match cond with
  | some c => if !sel.isNilSelector then ConditionalSelectorExpr sel c else sel
  | none => sel

/-- Function `buildSingle`. -/
def buildSingle (api : ConfigAPI Config CondConfig) (cfg : Config) (key : String) :
    Except Error SelectorExpr :=
  if !api.HasField cfg key then
    .error ("missing " ++ api.PathOf cfg key)
  else
    match api.StringOf cfg key with
    | .error err => .error err
    | .ok str =>
      match api.CompileEvent str with
      | .error err => .error (err ++ " in " ++ api.PathOf cfg key)
      | .ok evtfmt =>
        match buildSingle.otherwise api cfg with
        | .error err => .error err
        | .ok otherwise =>
          match buildSingle.mapping api cfg with
          | .error err => .error err
          | .ok table =>
            match buildSingle.cond api cfg with
            | .error err => .error err
            | .ok cond =>
              match buildSingle.selector evtfmt otherwise table with
              | .error err => .error err
              | .ok sel => .ok (buildSingle.wrap sel cond)

/-- The loop of `BuildSelectorFromConfig` over the entries of the multi-entry
field, appending to `sel`. -/
def BuildSelectorFromConfig.entries (api : ConfigAPI Config CondConfig) (key : String) :
    List Config → List SelectorExpr → Except Error (List SelectorExpr)
  | [], sel => .ok sel
  | config :: rest, sel =>
    match buildSingle api config key with
    | .error err => .error err
    | .ok action =>
      BuildSelectorFromConfig.entries api key rest
        (if !action.isNilSelector then sel ++ [action] else sel)

/-- The first block of `BuildSelectorFromConfig`: the multi-entry field. -/
def BuildSelectorFromConfig.multi (api : ConfigAPI Config CondConfig) (cfg : Config)
    (settings : Settings) : Except Error (List SelectorExpr) :=
  if api.HasField cfg settings.MultiKey then
    match api.Child cfg settings.MultiKey with
    | .error err => .error err
    | .ok sub =>
      match api.UnpackTable sub with
      | .error err => .error err
      | .ok table => BuildSelectorFromConfig.entries api settings.Key table []
  else .ok []

/-- The second block of `BuildSelectorFromConfig`: the single-key shorthand,
appending to `sel`. -/
def BuildSelectorFromConfig.single (api : ConfigAPI Config CondConfig) (cfg : Config)
    (settings : Settings) (sel : List SelectorExpr) : Except Error (List SelectorExpr) :=
  if settings.EnableSingleOnly && api.HasField cfg settings.Key then
    match api.StringOf cfg settings.Key with
    | .error err => .error err
    | .ok str =>
      match api.CompileEvent str with
      | .error err => .error (err ++ " in " ++ api.PathOf cfg settings.Key)
      | .ok fmtstr =>
        if fmtstr.IsConst then
          let r := fmtstr.Run none
          match r.2 with
          | some err => .error err
          | none => if r.1 ≠ "" then .ok (sel ++ [ConstSelectorExpr r.1]) else .ok sel
        else
          .ok (sel ++ [FmtSelectorExpr fmtstr ""])
  else .ok sel

/-- The variable `found` of `BuildSelectorFromConfig` when the last block is reached. -/
def BuildSelectorFromConfig.found (api : ConfigAPI Config CondConfig) (cfg : Config)
    (settings : Settings) : Bool :=
  api.HasField cfg settings.MultiKey ||
    (settings.EnableSingleOnly && api.HasField cfg settings.Key)

/-- Function `BuildSelectorFromConfig`. -/
def BuildSelectorFromConfig (api : ConfigAPI Config CondConfig) (cfg : Config)
    (settings : Settings) : Except Error Selector :=
  match BuildSelectorFromConfig.multi api cfg settings with
  | .error err => .error err
  | .ok sel =>
    match BuildSelectorFromConfig.single api cfg settings sel with
    | .error err => .error err
    | .ok sel =>
      if settings.FailEmpty && !BuildSelectorFromConfig.found api cfg settings then
        if settings.EnableSingleOnly then
          .error ("missing required \x27" ++ settings.Key ++ "\x27 or \x27" ++
            settings.MultiKey ++ "\x27 in " ++ api.Path cfg)
        else
          .error ("missing required \x27" ++ settings.MultiKey ++ "\x27 in " ++ api.Path cfg)
      else
        .ok (MakeSelector sel)

end build

/-! ## The tree without constant folding -/

/-- The unfolded tree of a selector entry, after the words of the specification: a
format node over the template with the configured fallback, inside a mapping
node when a non-empty table is configured, inside a conditional node when a
condition is configured.  With a table the format node has the empty fallback
and the mapping node the configured one, as in the tree `buildSingle` builds
for a template that is not constant. -/
def unfoldedSingle (evtfmt : EventFormatString) (otherwise : String) (table : GoMap)
    (cond : Option Condition) : SelectorExpr :=
  let sel : SelectorExpr :=
    if table.nonEmpty then .map (.fmt evtfmt "") otherwise table else .fmt evtfmt otherwise
  match cond with
  | some c => .cond sel c
  | none => sel

/-! ## A concrete configuration for examples -/

/-- Modelled from the spec: a compiler for two kinds of template, enough for the
scenarios of the specification.  The text `%{[name]}` is one field reference:
it renders the string stored at field `name` and fails when the event or the
field is absent.  Any other text is a constant rendered as it stands. -/
def exampleCompile (s : String) : EventFormatString :=
  match s.data with
  | '%' :: '{' :: '[' :: rest =>
    let name := String.mk (rest.take (rest.length - 2))
    { IsConst := false
      Run := fun evt =>
        match evt with
        | none => ("", some "nil event")
        | some e =>
          match e.Fields.lookup name with
          | some (.str v) => (v, none)
          | _ => ("", some ("key not found: " ++ name)) }
  | _ => { IsConst := true, Run := fun _ => (s, none) }

/-- One entry of a selector list in a configuration file: the key template, the
default, the mappings table and a `when` condition of constant truth value. -/
structure ExampleEntry where
  key : Option String
  dflt : Option String
  mappings : Option GoMap
  when : Option Bool

/-- A configuration tree for examples: an output section with the single key
`index` and the list `indices`, the list itself, one entry, one condition. -/
inductive ExampleConfig where
  | root (single : Option String) (multi : Option (List ExampleEntry))
  | entries (es : List ExampleEntry)
  | entry (e : ExampleEntry)
  | cond (b : Bool)

/-- The configuration functions over `ExampleConfig`. -/
def exampleAPI : ConfigAPI ExampleConfig Bool where
  HasField := fun cfg name =>
    match cfg with
    | .root single multi =>
      (name == "index" && single.isSome) || (name == "indices" && multi.isSome)
    | .entry e =>
      (name == "index" && e.key.isSome) || (name == "default" && e.dflt.isSome) ||
        (name == "mappings" && e.mappings.isSome) || (name == "when" && e.when.isSome)
    | _ => false
  StringOf := fun cfg name =>
    match cfg with
    | .root (some v) _ => if name == "index" then .ok v else .error "missing field"
    | .entry e =>
      if name == "index" then
        match e.key with
        | some v => .ok v
        | none => .error "missing field"
      else if name == "default" then
        match e.dflt with
        | some v => .ok v
        | none => .error "missing field"
      else .error "missing field"
    | _ => .error "missing field"
  Child := fun cfg name =>
    match cfg with
    | .root _ (some es) => if name == "indices" then .ok (.entries es) else .error "missing field"
    | .entry e =>
      match e.when with
      | some b => if name == "when" then .ok (.cond b) else .error "missing field"
      | none => .error "missing field"
    | _ => .error "missing field"
  UnpackTable := fun cfg =>
    match cfg with
    | .entries es => .ok (es.map .entry)
    | _ => .error "type mismatch"
  UnpackMappings := fun cfg =>
    match cfg with
    | .entry e => .ok (e.mappings.getD [])
    | _ => .error "type mismatch"
  UnpackCond := fun cfg =>
    match cfg with
    | .cond b => .ok b
    | _ => .error "type mismatch"
  NewCondition := fun b => .ok (some ⟨fun _ => b⟩)
  CompileEvent := fun s => .ok (exampleCompile s)
  PathOf := fun _ name => name
  Path := fun _ => "output"

/-- An event whose field `user` is `bob`. -/
def bobEvent : Event :=
  { Timestamp := 0, Meta := none, Fields := [("user", .str "bob")] }

/-- An event with the given string at field `code`. -/
def codeEvent (code : String) : Event :=
  { Timestamp := 0, Meta := none, Fields := [("code", .str code)] }

/-- The configuration functions of `exampleAPI` with a compiler that rejects the
template `%` followed by an opening brace that is never closed. -/
def exampleAPIChecked : ConfigAPI ExampleConfig Bool :=
  { exampleAPI with
    CompileEvent := fun s =>
      if s = "%\x7b" then .error "missing closing brace" else .ok (exampleCompile s) }

end outil

/-!
Client ackers (package publisher/pipeline), after `publisher/pipeline/client_ack.go`.
-/

namespace pipeline

open beat

/-- Modelled from the spec: interface `acker` (its declaration, in acker.go, is not
part of the sources): `addEvent(event, published) bool`, `ackEvents(n)` and
`close()`, as functions on the state `σ` of the implementation. -/
structure acker (σ : Type) where
  addEvent : σ → Event → Bool → σ × Bool
  ackEvents : σ → Int → σ
  close : σ → σ

/-- A call of one of the three methods of an acker. -/
inductive ackerCall where
  | addEvent (event : Event) (published : Bool)
  | ackEvents (n : Int)
  | close

/-- Whether a call is an `addEvent`. -/
def ackerCall.isAddEvent : ackerCall → Bool
  | .addEvent _ _ => true
  | _ => false

/-- An acker that keeps, next to the state of `impl`, the calls it has received,
oldest first, and answers as `impl` does. -/
def acker.recorded {σ : Type} (impl : pipeline.acker σ) :
    pipeline.acker (σ × List ackerCall) where
  addEvent := fun s event published =>
    (((impl.addEvent s.1 event published).1, s.2 ++ [.addEvent event published]),
      (impl.addEvent s.1 event published).2)
  ackEvents := fun s n => (impl.ackEvents s.1 n, s.2 ++ [.ackEvents n])
  close := fun s => (impl.close s.1, s.2 ++ [.close])

/-- The struct `clientACKer`: the embedded acker and the atomic flag `active`.
The zero value, whose acker is nil, is not represented. -/
structure clientACKer (σ : Type) where
  acker : σ
  active : Bool

section guard

variable {σ : Type}

/-- The atomic `a.active.Store(b)`. -/
def clientACKer.store (a : clientACKer σ) (b : Bool) : clientACKer σ :=
  { a with active := b }

/-- Method `(a *clientACKer) lift`. -/
def clientACKer.lift (a : clientACKer σ) (acker : σ) : clientACKer σ :=
  let a := a.store true
  { a with acker := acker }

/-- Method `(a *clientACKer) Active`. -/
def clientACKer.Active (a : clientACKer σ) : Bool :=
  a.active

/-- Method `(a *clientACKer) close`: the store, then the call of the wrapped `close`. -/
def clientACKer.close (impl : pipeline.acker σ) (a : clientACKer σ) : clientACKer σ :=
  let a := a.store false
  { a with acker := impl.close a.acker }

/-- Method `(a *clientACKer) addEvent`. -/
def clientACKer.addEvent (impl : pipeline.acker σ) (a : clientACKer σ) (event : Event)
    (published : Bool) : clientACKer σ × Bool :=
  if a.active then
    ({ a with acker := (impl.addEvent a.acker event published).1 },
      (impl.addEvent a.acker event published).2)
  else
    (a, false)

/-- Method `(a *clientACKer) ackEvents`. -/
def clientACKer.ackEvents (impl : pipeline.acker σ) (a : clientACKer σ) (n : Int) :
    clientACKer σ :=
  { a with acker := impl.ackEvents a.acker n }

/-- A sequence of calls on the guard, one after the other; next to the final guard
it gives the values returned by the `addEvent` calls, in call order. -/
def clientACKer.run (impl : pipeline.acker σ) :
    clientACKer σ → List ackerCall → clientACKer σ × List Bool
  | a, [] => (a, [])
  | a, .addEvent event published :: rest =>
    let r := clientACKer.addEvent impl a event published
    let q := clientACKer.run impl r.1 rest
    (q.1, r.2 :: q.2)
  | a, .ackEvents n :: rest => clientACKer.run impl (clientACKer.ackEvents impl a n) rest
  | a, .close :: rest => clientACKer.run impl (clientACKer.close impl a) rest

end guard

/-! ### One `close` racing one `addEvent` -/

/-- The goroutine that takes the next step: the one in `close` or the one in
`addEvent`. -/
inductive raceThread where
  | closer
  | adder
  deriving DecidableEq

/-- The steps of the two calls, in the order they are taken: the store and the
wrapped call of `close`, the load and then the wrapped call or the `return false`
of `addEvent`. -/
inductive raceAction where
  | storeFalse
  | wrappedClose
  | load (b : Bool)
  | wrappedAddEvent
  | returnFalse
  deriving DecidableEq

/-- The guard and the progress of the two calls: how many steps `close` has
taken, the flag value `addEvent` has loaded, the value `addEvent` has returned,
and the steps taken so far, oldest first. -/
structure raceState (σ : Type) where
  guard : clientACKer σ
  closePc : Nat
  loaded : Option Bool
  result : Option Bool
  actions : List raceAction

section race

variable {σ : Type}

/-- Both calls not yet started. -/
def raceState.start (a : clientACKer σ) : raceState σ :=
  { guard := a, closePc := 0, loaded := none, result := none, actions := [] }

/-- One step of the chosen goroutine; a call that has returned takes no step.
The statements of `close` are `a.active.Store(false)` and `a.acker.close()`;
those of `addEvent` are `a.active.Load()` and then, by the value loaded,
`return a.acker.addEvent(event, published)` or `return false`. -/
def raceState.step (impl : pipeline.acker σ) (event : Event) (published : Bool)
    (st : raceState σ) : raceThread → raceState σ
  | .closer =>
    match st.closePc with
    | 0 => { st with guard := st.guard.store false, closePc := 1,
                     actions := st.actions ++ [.storeFalse] }
    | 1 => { st with guard := { st.guard with acker := impl.close st.guard.acker },
                     closePc := 2, actions := st.actions ++ [.wrappedClose] }
    | _ => st
  | .adder =>
    match st.result, st.loaded with
    | some _, _ => st
    | none, none =>
      { st with loaded := some st.guard.active,
                actions := st.actions ++ [.load st.guard.active] }
    | none, some true =>
      { st with
        guard := { st.guard with acker := (impl.addEvent st.guard.acker event published).1 },
        result := some (impl.addEvent st.guard.acker event published).2,
        actions := st.actions ++ [.wrappedAddEvent] }
    | none, some false =>
      { st with result := some false, actions := st.actions ++ [.returnFalse] }

/-- The steps of a schedule, one after the other. -/
def raceState.steps (impl : pipeline.acker σ) (event : Event) (published : Bool) :
    raceState σ → List raceThread → raceState σ
  | st, [] => st
  | st, t :: rest => raceState.steps impl event published (st.step impl event published t) rest

end race

/-- The interleavings of the two steps of `close` with the two steps of `addEvent`. -/
def raceSchedules : List (List raceThread) :=
  [[.closer, .closer, .adder, .adder],
   [.closer, .adder, .closer, .adder],
   [.closer, .adder, .adder, .closer],
   [.adder, .closer, .closer, .adder],
   [.adder, .closer, .adder, .closer],
   [.adder, .adder, .closer, .closer]]

/-- An acker for examples: it counts the events it tracks and admits every event. -/
def exampleAcker : pipeline.acker Nat where
  addEvent := fun s _ _ => (s + 1, true)
  ackEvents := fun s n => s - n.toNat
  close := fun s => s

/-- An event for examples. -/
def exampleEvent : Event :=
  { Timestamp := 0, Meta := none, Fields := [("message", .str "hello")] }

/-! ### Choosing the acker -/

/-- A Go callback `func(x)`: its effect on what lies outside the pipeline, of type
`τ`; `none` is a panic. -/
abbrev Callback (χ τ : Type) := χ → τ → Option τ

/-- The ack callbacks of `beat.ClientConfig` (package beat is not part of the
sources): `ACKCount func(int)`, `ACKEvents func([]interface{})` and
`ACKLastEvent func(interface{})`, each nil or set.  The other fields play no
part in `makeACKer`. -/
structure ClientConfig (α τ : Type) where
  ACKCount : Option (Callback Int τ)
  ACKEvents : Option (Callback (List α) τ)
  ACKLastEvent : Option (Callback α τ)

/-- Modelled from the spec: the ackers `makeACKer` can return.  The methods of
the acker builder and `newWaitACK` are not part of the sources; a term names
the function called and its arguments, `sema` being the semaphore. -/
inductive ackerTerm (S α τ : Type) where
  | createCountACKer (canDrop : Bool) (sema : S) (fn : Callback Int τ)
  | createEventACKer (canDrop : Bool) (sema : S) (fn : Callback (List α) τ)
  | createPipelineACKer (canDrop : Bool) (sema : S)
  | newWaitACK (acker : ackerTerm S α τ) (waitClose : Int)

/-- Whether an acker is the pipeline acker. -/
def ackerTerm.isPipelineACKer {S α τ : Type} : ackerTerm S α τ → Bool
  | .createPipelineACKer _ _ => true
  | _ => false

/-- Whether an acker is a wait-close acker around another one. -/
def ackerTerm.isWaitACK {S α τ : Type} : ackerTerm S α τ → Bool
  | .newWaitACK _ _ => true
  | _ => false

/-- The field `eventSema` of the struct `Pipeline`. -/
structure Pipeline (S : Type) where
  eventSema : S

/-- Function `lastEventACK`.  The index `len(events)-1` is out of range for an
empty slice, and the callback panics. -/
def lastEventACK {α τ : Type} (fn : Callback α τ) : Callback (List α) τ :=
  fun events w =>
    match events[events.length - 1]? with
    | some e => fn e w
    | none => none

/-- Method `(p *Pipeline) makeACKer`; `waitClose` is a `time.Duration`. -/
def Pipeline.makeACKer {S α τ : Type} (p : Pipeline S) (canDrop : Bool)
    (cfg : ClientConfig α τ) (waitClose : Int) : ackerTerm S α τ :=
  let sema := p.eventSema
  let decorate (acker : ackerTerm S α τ) : ackerTerm S α τ :=
    if waitClose ≤ 0 then acker else .newWaitACK acker waitClose
  match cfg.ACKCount with
  | some fn => decorate (.createCountACKer canDrop sema fn)
  | none =>
    match cfg.ACKEvents with
    | some fn => decorate (.createEventACKer canDrop sema fn)
    | none =>
      match cfg.ACKLastEvent with
      | some fn => decorate (.createEventACKer canDrop sema (lastEventACK fn))
      | none =>
        if waitClose ≤ 0 then
          .createPipelineACKer canDrop sema
        else
          decorate (.createCountACKer canDrop sema (fun _ w => some w))

/-- A callback that appends its argument to the list of the arguments it was
called with. -/
def recordCall {χ : Type} : Callback χ (List χ) :=
  fun x w => some (w ++ [x])

end pipeline

/-!
The rename processor (package processors/actions), after `processors/actions/rename.go`.
-/

namespace actions

open beat

/-- Go `error` values, identified by their message. -/
abbrev Error := String

/-- The type `common.MapStr` of the fields of an event. -/
abbrev MapStr := List (String × Value)

/-- Modelled from the spec: the methods of `common.MapStr` that `rename.go` calls
(package common is not part of the sources), taken as parameters.  `Delete` and
`Put` change the map in place and give the map after the call, also when they
fail; `Clone` gives the copy kept as backup; `isKeyNotFound err` is
`errors.Cause(err) == common.ErrKeyNotFound`; `format` prints a value with `%v`. -/
structure MapStrAPI where
  HasKey : MapStr → String → Bool × Option Error
  GetValue : MapStr → String → Except Error Value
  Delete : MapStr → String → MapStr × Option Error
  Put : MapStr → String → Value → MapStr × Option Error
  Clone : MapStr → MapStr
  isKeyNotFound : Error → Bool
  format : Value → String

/-- The struct `fromTo`; the fields `From` and `To`. -/
structure fromTo where
  From : String
  To : String

/-- The struct `renameFieldsConfig`. -/
structure renameFieldsConfig where
  Fields : List fromTo
  IgnoreMissing : Bool
  FailOnError : Bool

/-- The struct `renameFields`. -/
structure renameFields where
  config : renameFieldsConfig

/-- Function `newRenameFields`; `unpack` is `c.Unpack(&config)`, which overwrites
the settings present in the configuration. -/
def newRenameFields (unpack : renameFieldsConfig → Except Error renameFieldsConfig) :
    Except Error renameFields :=
  let config : renameFieldsConfig := { Fields := [], IgnoreMissing := false, FailOnError := true }
  match unpack config with
  | .error err => .error ("failed to unpack the rename configuration: " ++ err)
  | .ok config => .ok { config := config }

/-- Method `(f *renameFields) renameField`: the map after the call and the error. -/
def renameFields.renameField (api : MapStrAPI) (f : renameFields) (frm target : String)
    (fields : MapStr) : MapStr × Option Error :=
  if (api.HasKey fields target).1 then
    (fields, some ("target field " ++ target ++
      " already exists, drop or rename this field first"))
  else
    match api.GetValue fields frm with
    | .error err =>
      if f.config.IgnoreMissing && api.isKeyNotFound err then
        (fields, none)
      else
        (fields, some ("could not fetch value for key: " ++ frm ++ ", Error: " ++ err))
    | .ok value =>
      let d := api.Delete fields frm
      match d.2 with
      | some err => (d.1, some ("could not delete key: " ++ frm ++ ",  " ++ err))
      | none =>
        let q := api.Put d.1 target value
        match q.2 with
        | some err =>
          (q.1, some ("could not put value: " ++ target ++ ": " ++ api.format value ++
            ", " ++ err))
        | none => (q.1, none)

/-- The `for` loop of `(f *renameFields) Run`. -/
def renameFields.Run.loop (api : MapStrAPI) (f : renameFields) (backup : MapStr) :
    List fromTo → Event → Event × Option Error
  | [], event => (event, none)
  | field :: rest, event =>
    let r := f.renameField api field.From field.To event.Fields
    let event := { event with Fields := r.1 }
    if r.2.isSome && f.config.FailOnError then
      ({ event with Fields := backup }, r.2)
    else
      renameFields.Run.loop api f backup rest event

/-- Method `(f *renameFields) Run`; without `FailOnError` the backup is the nil map. -/
def renameFields.Run (api : MapStrAPI) (f : renameFields) (event : Event) :
    Event × Option Error :=
  let backup : MapStr := if f.config.FailOnError then api.Clone event.Fields else []
  renameFields.Run.loop api f backup f.config.Fields event

/-- Maps with flat keys, for examples: a key is present when it is the first
component of an entry, `Delete` fails on an absent key and `Put` replaces the
entry of the key or adds one. -/
def exampleMapStr : MapStrAPI where
  HasKey := fun m k => ((m.lookup k).isSome, none)
  GetValue := fun m k =>
    match m.lookup k with
    | some v => .ok v
    | none => .error "key not found"
  Delete := fun m k =>
    if (m.lookup k).isSome then (m.filter (fun e => e.1 != k), none)
    else (m, some "key not found")
  Put := fun m k v => (m.filter (fun e => e.1 != k) ++ [(k, v)], none)
  Clone := fun m => m
  isKeyNotFound := fun err => err == "key not found"
  format := fun _ => "value"

end actions

/-!
Exit handling of a beat (package cmd/instance, whose name is a keyword here), after
`cmd/instance/beat.go`.
-/

namespace cmd

/-- What `handleError` returns and what it writes: the lines given to
`logp.Critical` and the text printed to standard error. -/
structure handled (E : Type) where
  ret : Option E
  logged : List String
  stderr : List String

/-- Function `handleError`.  Go error values are the elements of `E`, compared by
`==`; `GracefulExit` is the variable `beat.GracefulExit` (package beat is not
part of the sources) and `render` prints an error with `%v`. -/
def handleError {E : Type} [DecidableEq E] (GracefulExit : E) (render : E → String)
    (err : Option E) : handled E :=
  if err = none ∨ err = some GracefulExit then
    { ret := none, logged := [], stderr := [] }
  else
    { ret := err,
      logged := ["Exiting: " ++ (err.map render).getD ""],
      stderr := ["Exiting: " ++ (err.map render).getD "" ++ "\n"] }

end cmd

/-!
Instance ids of autodiscover events (package autodiscover), after
`autodiscover/autodiscover.go`.
-/

namespace autodiscover

open beat

/-- The type `bus.Event`, a map from strings to values (package common/bus is not
part of the sources). -/
abbrev Event := List (String × Value)

/-- Function `getID`; `sprint` prints a value with the verb `%s`. -/
def getID (sprint : Value → String) (e : Event) : String :=
  match e.lookup "provider" with
  | none => ""
  | some provider =>
    match e.lookup "id" with
    | none => ""
    | some id => sprint provider ++ ":" ++ sprint id

/-- The verb `%s` for examples: a string is printed as it stands. -/
def exampleSprint : Value → String
  | .str s => s
  | _ => "%!s(?)"

end autodiscover

/-!
Writing decoded JSON into an event (package common/jsontransform), after
`common/jsontransform/jsonhelper.go`.
-/

namespace jsontransform

open beat

/-- Go map indexing `v, exists := m[k]` on a map from strings to values. -/
def mapGet (m : List (String × Value)) (k : String) : Option Value :=
  m.lookup k

/-- Go map assignment `m[k] = v` on a map that is not nil; on the nil map the
assignment panics, which the callers that can meet one handle. -/
def mapSet (m : List (String × Value)) (k : String) (v : Value) : List (String × Value) :=
  (k, v) :: m.filter (fun e => e.1 != k)

/-- The functions of other packages that `WriteJSONKeys` calls, taken as
parameters: `parseRFC3339 s` is `time.Parse(time.RFC3339, s)`, `none` when it
fails, and `Update m d` is the receiver `m`, nil or not, after `m.Update(d)` of
`common.MapStr` (package common is not part of the sources), `none` when the
call panics, as an assignment into the nil map does. -/
structure Deps where
  parseRFC3339 : String → Option Int
  Update : Option (List (String × Value)) → List (String × Value) →
    Option (Option (List (String × Value)))

/-- Function `createJSONError`. -/
def createJSONError (message : String) : Value :=
  .obj [("message", .str message), ("type", .str "json")]

/-- The body of the first loop of `WriteJSONKeys`, for `overwriteKeys` false. -/
def WriteJSONKeys.keep (event : Event) (k : String) (v : Value) : Event :=
  if (mapGet event.Fields k).isNone && k != "@timestamp" && k != "@metadata" then
    { event with Fields := mapSet event.Fields k v }
  else
    event

/-- The statement `event.Fields["error"] = createJSONError(message)`. -/
def WriteJSONKeys.setError (event : Event) (message : String) : Event :=
  { event with Fields := mapSet event.Fields "error" (createJSONError message) }

/-- The loop `for meta, value := range m` with the body `event.Meta[meta] = value`,
from the metadata `old`: the metadata after it, or `none` when it panics.  An
assignment into the nil map panics, so the nil map passes only the loop over
an empty `m`. -/
def WriteJSONKeys.metaLoop (m : List (String × String))
    (old : Option (List (String × Value))) : Option (Option (List (String × Value))) :=
  match old with
  | some entries => some (some (m.foldl (fun acc e => mapSet acc e.1 (.str e.2)) entries))
  | none => if m.isEmpty then some none else none

/-- The body of the second loop of `WriteJSONKeys`, for `overwriteKeys` true:
`.ok` with the event after the body, `.error` with the event as the body leaves
it when it panics. -/
def WriteJSONKeys.overwrite (deps : Deps) (event : Event) (k : String) (v : Value) :
    Except Event Event :=
  if k = "@timestamp" then
    match v with
    | .str vstr =>
      match deps.parseRFC3339 vstr with
      | none =>
        .ok (WriteJSONKeys.setError event
          ("@timestamp not overwritten (parse error on " ++ vstr ++ ")"))
      | some ts => .ok { event with Timestamp := ts }
    | _ => .ok (WriteJSONKeys.setError event "@timestamp not overwritten (not string)")
  else if k = "@metadata" then
    match v with
    | .strMap m =>
      match WriteJSONKeys.metaLoop m event.Meta with
      | some updated => .ok { event with Meta := updated }
      | none => .error event
    | .ifaceMap m =>
      match deps.Update event.Meta m with
      | some updated => .ok { event with Meta := updated }
      | none => .error event
    | _ => .ok (WriteJSONKeys.setError event "failed to update @metadata")
  else if k = "type" then
    match v with
    | .str vstr =>
      if vstr.length = 0 || vstr.data.head? = some '_' then
        .ok (WriteJSONKeys.setError event
          ("type not overwritten (invalid value [" ++ vstr ++ "])"))
      else
        .ok { event with Fields := mapSet event.Fields k (.str vstr) }
    | _ => .ok (WriteJSONKeys.setError event "type not overwritten (not string)")
  else
    .ok { event with Fields := mapSet event.Fields k v }

/-- The second loop of `WriteJSONKeys` over the entries in visiting order; a
panic ends it. -/
def WriteJSONKeys.overwriteAll (deps : Deps) :
    List (String × Value) → Event → Except Event Event
  | [], event => .ok event
  | e :: rest, event =>
    match WriteJSONKeys.overwrite deps event e.1 e.2 with
    | .error left => .error left
    | .ok next => WriteJSONKeys.overwriteAll deps rest next

/-- Function `WriteJSONKeys`.  The map `keys` is the list of its entries in the
order the `range` loop visits them.  The result is `.ok` with the event after
the call, or `.error` with the event as it is left when the call panics. -/
def WriteJSONKeys (deps : Deps) (event : Event) (keys : List (String × Value))
    (overwriteKeys : Bool) : Except Event Event :=
  if !overwriteKeys then
    .ok (keys.foldl (fun ev e => WriteJSONKeys.keep ev e.1 e.2) event)
  else
    WriteJSONKeys.overwriteAll deps keys event

/-- Whether visiting the entry writes the field `error` of the event. -/
def WriteJSONKeys.writesError (deps : Deps) (k : String) (v : Value) : Bool :=
  if k = "@timestamp" then
    match v with
    | .str vstr => (deps.parseRFC3339 vstr).isNone
    | _ => true
  else if k = "@metadata" then
    match v with
    | .strMap _ => false
    | .ifaceMap _ => false
    | _ => true
  else if k = "type" then
    match v with
    | .str vstr => vstr.length = 0 || vstr.data.head? = some '_'
    | _ => true
  else
    k = "error"

/-- The one assignment that visiting an entry makes: to a field, to the
timestamp, or to the metadata as a function of their previous value, which
gives `none` when the assignment panics. -/
inductive Write where
  | field (k : String) (v : Value)
  | timestamp (ts : Int)
  | metadata (f : Option (List (String × Value)) → Option (Option (List (String × Value))))

/-- The event after an assignment, or the event left by its panic. -/
def Write.apply (w : Write) (event : Event) : Except Event Event :=
  match w with
  | .field k v => .ok { event with Fields := mapSet event.Fields k v }
  | .timestamp ts => .ok { event with Timestamp := ts }
  | .metadata f =>
    match f event.Meta with
    | some updated => .ok { event with Meta := updated }
    | none => .error event

/-- The assignment made by the body of the second loop on the entry `k`, `v`. -/
def WriteJSONKeys.write (deps : Deps) (k : String) (v : Value) : Write :=
  if k = "@timestamp" then
    match v with
    | .str vstr =>
      match deps.parseRFC3339 vstr with
      | none =>
        .field "error"
          (createJSONError ("@timestamp not overwritten (parse error on " ++ vstr ++ ")"))
      | some ts => .timestamp ts
    | _ => .field "error" (createJSONError "@timestamp not overwritten (not string)")
  else if k = "@metadata" then
    match v with
    | .strMap m => .metadata (WriteJSONKeys.metaLoop m)
    | .ifaceMap m => .metadata (fun old => deps.Update old m)
    | _ => .field "error" (createJSONError "failed to update @metadata")
  else if k = "type" then
    match v with
    | .str vstr =>
      if vstr.length = 0 || vstr.data.head? = some '_' then
        .field "error"
          (createJSONError ("type not overwritten (invalid value [" ++ vstr ++ "])"))
      else
        .field k (.str vstr)
    | _ => .field "error" (createJSONError "type not overwritten (not string)")
  else
    .field k v

/-- Two events with the same timestamp, the same metadata and the same value at
every field, the field `error` being compared only when `b` is true. -/
def agree (b : Bool) (e1 e2 : Event) : Prop :=
  e1.Timestamp = e2.Timestamp ∧ e1.Meta = e2.Meta ∧
    ∀ k, (b = true ∨ k ≠ "error") → mapGet e1.Fields k = mapGet e2.Fields k

/-- Parameters for examples: no text parses as a time, and `Update` copies the
entries of its argument over those of the receiver, which panics on the nil
map unless there is nothing to copy. -/
def exampleDeps : Deps where
  parseRFC3339 := fun _ => none
  Update := fun m d =>
    match m with
    | some entries => some (some (d.foldl (fun acc e => mapSet acc e.1 e.2) entries))
    | none => if d.isEmpty then some none else none

/-- An event as mockbeat publishes it: fields and no metadata. -/
def mockEvent : Event :=
  { Timestamp := 0, Meta := none,
    Fields := [("type", .str "mock"), ("message", .str "Mockbeat is alive!")] }

end jsontransform

namespace outil

open beat

/-! ## Lemmas on the list loop -/

/-- The loop passes over sub-selectors that yield `("", nil)`. -/
theorem listSelector.loop_skip (evt : Option Event) (pre rest : List SelFn) (i : Nat)
    (hpre : ∀ p ∈ pre, p evt = ("", none)) :
    listSelector.loop evt (pre ++ rest) i =
      ((listSelector.loop evt rest (i + pre.length)).1,
        List.range' i pre.length ++ (listSelector.loop evt rest (i + pre.length)).2) := by
  induction pre generalizing i with
  | nil => simp
  | cons p ps ih =>
    have hp : p evt = ("", none) := hpre p (List.mem_cons_self _ _)
    have hps : ∀ q ∈ ps, q evt = ("", none) := fun q hq => hpre q (List.mem_cons_of_mem _ hq)
    have hlen : i + 1 + ps.length = i + (ps.length + 1) := by omega
    have hrec := ih (i + 1) hps
    rw [hlen] at hrec
    show listSelector.loop evt (p :: (ps ++ rest)) i = _
    simp [listSelector.loop, hp, hrec, List.range'_succ]

/-- The loop stops at a sub-selector that does not yield `("", nil)`. -/
theorem listSelector.loop_stop (evt : Option Event) (e : SelFn) (post : List SelFn) (i : Nat)
    (he : e evt ≠ ("", none)) :
    listSelector.loop evt (e :: post) i = (e evt, [i]) := by
  rcases hr : e evt with ⟨n, err⟩
  rw [hr] at he
  cases err with
  | some x => simp [listSelector.loop, hr]
  | none =>
    have hn : n ≠ "" := fun h => he (by rw [h])
    simp [listSelector.loop, hr, hn]

/-- A slice of expressions that all yield `("", nil)` has `sel` methods that do. -/
theorem SelectorExpr.selAll_empty (es : List SelectorExpr) (evt : Option Event)
    (h : ∀ e ∈ es, e.sel evt = ("", none)) :
    ∀ p ∈ SelectorExpr.selAll es, p evt = ("", none) := by
  induction es with
  | nil => simp [SelectorExpr.selAll]
  | cons e es ih =>
    intro p hp
    simp only [SelectorExpr.selAll, List.mem_cons] at hp
    rcases hp with rfl | hp
    · exact h e (List.mem_cons_self _ _)
    · exact ih (fun q hq => h q (List.mem_cons_of_mem _ hq)) p hp

/-! ## The selector nodes -/

/-- C2, as amended: when `from` yields `n` without error, a mapping selector
returns the fallback if `n` is empty, is not a key of the table, or is mapped to
the empty string, and returns `table[n]` otherwise; the error is nil in both
cases. -/
theorem mapSelector_sel_lookup (frm : SelFn) (table : GoMap) (fallback : String)
    (evt : Option Event) (n : String) (h : frm evt = (n, none)) :
    ((n = "" ∨ table.lookup n = none ∨ table.lookup n = some "") →
        mapSelector.sel frm fallback table evt = (fallback, none)) ∧
    (∀ v, n ≠ "" → table.lookup n = some v → v ≠ "" →
        mapSelector.sel frm fallback table evt = (v, none) ∧ table.index n = v) := by
  constructor
  · intro hc
    rcases hc with hn | hl | hl
    · simp [mapSelector.sel, h, hn]
    · simp [mapSelector.sel, h, GoMap.index, hl]
    · simp [mapSelector.sel, h, GoMap.index, hl]
  · intro v hn hl hv
    simp [mapSelector.sel, h, GoMap.index, hl, hn, hv]

/-- C2, witness: the scenario of the specification, code `2` is mapped to `err`. -/
theorem mapSelector_sel_lookup_witness :
    fmtSelector.sel (exampleCompile "%{[code]}") "" (some (codeEvent "2")) = ("2", none) ∧
    mapSelector.sel (fmtSelector.sel (exampleCompile "%{[code]}") "")
      "unknown" [("1", "ok"), ("2", "err")] (some (codeEvent "2")) = ("err", none) :=
  ⟨by decide,
   ((mapSelector_sel_lookup (fmtSelector.sel (exampleCompile "%{[code]}") "")
      [("1", "ok"), ("2", "err")] "unknown" (some (codeEvent "2")) "2" (by decide)).2
      "err" (by decide) (by decide) (by decide)).1⟩

/-- C2, counterexample: `a` is a non-empty key of the table and `from` yields it
without error, yet the mapping selector returns the fallback `x` and not the
table entry, which is the empty string. -/
theorem mapSelector_sel_lookup_counterexample :
    constSelector.sel "a" none = ("a", none) ∧
    ("a" ≠ "" ∧ List.lookup "a" [("a", "")] = some "") ∧
    mapSelector.sel (constSelector.sel "a") "x" [("a", "")] none = ("x", none) ∧
    mapSelector.sel (constSelector.sel "a") "x" [("a", "")] none ≠
      (GoMap.index [("a", "")] "a", none) := by
  decide

/-- C3: when `from` returns an error, a mapping selector returns the fallback and
a nil error if the fallback is non-empty, and the empty string with that same
error if the fallback is empty. -/
theorem mapSelector_sel_error (frm : SelFn) (table : GoMap) (fallback : String)
    (evt : Option Event) (n : String) (err : Error) (h : frm evt = (n, some err)) :
    (fallback ≠ "" → mapSelector.sel frm fallback table evt = (fallback, none)) ∧
    (fallback = "" → mapSelector.sel frm fallback table evt = ("", some err)) := by
  constructor
  · intro hf
    simp [mapSelector.sel, h, hf]
  · intro hf
    simp [mapSelector.sel, h, hf]

/-- C3, witness: a failing `from` under the fallback `unknown` and under no fallback. -/
theorem mapSelector_sel_error_witness :
    mapSelector.sel (fun _ => ("", some "failed")) "unknown" [("1", "ok")] none =
      ("unknown", none) ∧
    mapSelector.sel (fun _ => ("", some "failed")) "" [("1", "ok")] none =
      ("", some "failed") :=
  ⟨(mapSelector_sel_error (fun _ => ("", some "failed")) [("1", "ok")] "unknown" none ""
      "failed" rfl).1 (by decide),
   (mapSelector_sel_error (fun _ => ("", some "failed")) [("1", "ok")] "" none ""
      "failed" rfl).2 rfl⟩

/-- C4: in a list selector whose first sub-expressions `pre` all yield
`("", nil)` and whose next sub-expression `e` does not, the sub-expressions
called are those at indices `0 .. |pre|`, in this order, so none of `post` is
called, and the result is the result of `e`: its non-empty string with a nil
error, or its error. -/
theorem listSelector_sel_first (pre post : List SelFn) (e : SelFn) (evt : Option Event)
    (hpre : ∀ p ∈ pre, p evt = ("", none)) (he : e evt ≠ ("", none)) :
    listSelector.sel (pre ++ e :: post) evt = e evt ∧
    (listSelector.loop evt (pre ++ e :: post) 0).2 = List.range (pre.length + 1) ∧
    (∀ n, e evt = (n, none) → n ≠ "" ∧ listSelector.sel (pre ++ e :: post) evt = (n, none)) ∧
    (∀ n err, e evt = (n, some err) →
      (listSelector.sel (pre ++ e :: post) evt).2 = some err) := by
  have hloop : listSelector.loop evt (pre ++ e :: post) 0 =
      (e evt, List.range (pre.length + 1)) := by
    rw [listSelector.loop_skip evt pre (e :: post) 0 hpre,
      listSelector.loop_stop evt e post (0 + pre.length) he]
    simp [List.range_eq_range', List.range'_concat]
  have hsel : listSelector.sel (pre ++ e :: post) evt = e evt := by
    simp [listSelector.sel, hloop]
  refine ⟨hsel, by rw [hloop], ?_, ?_⟩
  · intro n hn
    refine ⟨?_, by rw [hsel, hn]⟩
    intro h0
    exact he (by rw [hn, h0])
  · intro n err hn
    rw [hsel, hn]

/-- C4, witness: the scenario of the specification, with one more sub-expression
that is not called. -/
theorem listSelector_sel_first_witness :
    listSelector.sel
      [(SelectorExpr.cond (.const "x") ⟨fun _ => false⟩).sel, constSelector.sel "y",
        constSelector.sel "z"] none = ("y", none) ∧
    (listSelector.loop none
      [(SelectorExpr.cond (.const "x") ⟨fun _ => false⟩).sel, constSelector.sel "y",
        constSelector.sel "z"] 0).2 = [0, 1] :=
  ⟨(listSelector_sel_first [(SelectorExpr.cond (.const "x") ⟨fun _ => false⟩).sel]
      [constSelector.sel "z"] (constSelector.sel "y") none (by decide) (by decide)).1,
   (listSelector_sel_first [(SelectorExpr.cond (.const "x") ⟨fun _ => false⟩).sel]
      [constSelector.sel "z"] (constSelector.sel "y") none (by decide) (by decide)).2.1⟩

/-- C5: when rendering the template fails on an event, a format selector returns
exactly the fallback and a nil error; on no event does a format selector
return a non-nil error. -/
theorem fmtSelector_sel_absorbs (f : EventFormatString) (fallback : String)
    (evt : Option Event) (h : (f.Run evt).2 ≠ none) :
    fmtSelector.sel f fallback evt = (fallback, none) ∧
    ∀ evt2, (fmtSelector.sel f fallback evt2).2 = none := by
  constructor
  · have hs : (f.Run evt).2.isSome = true := Option.isSome_iff_ne_none.mpr h
    simp [fmtSelector.sel, hs]
  · intro evt2
    unfold fmtSelector.sel
    dsimp only
    split
    · rfl
    · split <;> rfl

/-- C5, witness: the scenario of the specification, an event without the field
`user` yields the fallback `anon`. -/
theorem fmtSelector_sel_absorbs_witness :
    ((exampleCompile "%{[user]}").Run (some (codeEvent "1"))).2 ≠ none ∧
    fmtSelector.sel (exampleCompile "%{[user]}") "anon" (some (codeEvent "1")) =
      ("anon", none) :=
  ⟨by decide,
   (fmtSelector_sel_absorbs (exampleCompile "%{[user]}") "anon" (some (codeEvent "1"))
      (by decide)).1⟩

/-- C6: when the template renders without error to a non-empty string `n` on an
event, a format selector returns `n`, not the fallback, with a nil error. -/
theorem fmtSelector_sel_rendered (f : EventFormatString) (fallback : String)
    (evt : Option Event) (n : String) (h : f.Run evt = (n, none)) (hn : n ≠ "") :
    fmtSelector.sel f fallback evt = (n, none) := by
  simp [fmtSelector.sel, h, hn]

/-- C6, witness: the scenario of the specification, the template `%{[user]}` with
fallback `anon` returns `bob` on an event whose field `user` is `bob`. -/
theorem fmtSelector_sel_rendered_witness :
    (exampleCompile "%{[user]}").Run (some bobEvent) = ("bob", none) ∧
    fmtSelector.sel (exampleCompile "%{[user]}") "anon" (some bobEvent) = ("bob", none) :=
  ⟨by decide,
   fmtSelector_sel_rendered (exampleCompile "%{[user]}") "anon" (some bobEvent) "bob"
     (by decide) (by decide)⟩

/-- C7: a conditional selector whose predicate is false on the event returns the
empty string and a nil error without calling `sel` on its expression; when the
predicate is true it calls it and returns exactly its result. -/
theorem condSelector_sel_gate (s : SelFn) (cond : Condition) (evt : Option Event) :
    (cond.Check evt = false →
      condSelector.run s cond evt = (("", none), false) ∧
      condSelector.sel s cond evt = ("", none)) ∧
    (cond.Check evt = true →
      condSelector.run s cond evt = (s evt, true) ∧
      condSelector.sel s cond evt = s evt) := by
  constructor
  · intro h
    simp [condSelector.sel, condSelector.run, h]
  · intro h
    simp [condSelector.sel, condSelector.run, h]

/-- C8: the expression `ConstSelectorExpr(s)`, and the selector made of it, return
`s` and a nil error on every event, the nil event included. -/
theorem ConstSelectorExpr_sel (s : String) (evt : Option Event) :
    (ConstSelectorExpr s).sel evt = (s, none) ∧
    (MakeSelector [ConstSelectorExpr s]).Select evt = (s, none) ∧
    (ConstSelectorExpr s).sel none = (s, none) :=
  ⟨rfl, rfl, rfl⟩

/-- C9: on every event the selector `MakeSelector()` returns `("", nil)`, and so
does every list selector, and every selector made by `MakeSelector`, all of
whose sub-expressions yield `("", nil)` on that event. -/
theorem Select_no_match (es : List SelectorExpr) (evt : Option Event)
    (h : ∀ e ∈ es, e.sel evt = ("", none)) :
    (MakeSelector []).Select evt = ("", none) ∧
    (ConcatSelectorExpr es).sel evt = ("", none) ∧
    (MakeSelector es).Select evt = ("", none) := by
  have hlist : (ConcatSelectorExpr es).sel evt = ("", none) := by
    have hskip := listSelector.loop_skip evt (SelectorExpr.selAll es) [] 0
      (SelectorExpr.selAll_empty es evt h)
    simp only [List.append_nil] at hskip
    simp [ConcatSelectorExpr, SelectorExpr.sel, listSelector.sel, hskip, listSelector.loop]
  refine ⟨rfl, hlist, ?_⟩
  match es, h, hlist with
  | [], _, _ => rfl
  | [e], h, _ => exact h e (List.mem_singleton_self e)
  | _ :: _ :: _, _, hlist => exact hlist

/-- C9, witness: two sub-expressions that do not match, a conditional with a
false predicate and a format whose field is absent. -/
theorem Select_no_match_witness :
    (MakeSelector [.cond (.const "x") ⟨fun _ => false⟩,
      .fmt (exampleCompile "%{[user]}") ""]).Select (some (codeEvent "1")) = ("", none) :=
  (Select_no_match [.cond (.const "x") ⟨fun _ => false⟩,
    .fmt (exampleCompile "%{[user]}") ""] (some (codeEvent "1")) (by decide)).2.2

/-! ## Constant folding -/

/-- The value of the expression that step 5 builds for a constant template:
with a table, the table entry of the constant or else the default; without a
table, the constant itself. -/
theorem buildSingle.selector_const (evtfmt : EventFormatString) (otherwise : String)
    (table : GoMap) (c : String) (hconst : evtfmt.IsConst = true)
    (hrun : evtfmt.Run none = (c, none)) :
    ∃ sel, buildSingle.selector evtfmt otherwise table = .ok sel ∧
      (sel = nilSelector ∨ ∃ v, v ≠ "" ∧ sel = ConstSelectorExpr v) ∧
      ∀ evt, sel.sel evt =
        (if table.nonEmpty then
          (if table.index c = "" then otherwise else table.index c)
         else c, none) := by
  unfold buildSingle.selector
  cases htab : table.nonEmpty
  · by_cases hc : c = ""
    · refine ⟨nilSelector, by simp [hconst, hrun, hc], Or.inl rfl, ?_⟩
      intro evt
      simp [nilSelector, SelectorExpr.sel, emptySelector.sel, hc]
    · refine ⟨ConstSelectorExpr c, by simp [hconst, hrun, hc], Or.inr ⟨c, hc, rfl⟩, ?_⟩
      intro evt
      simp [ConstSelectorExpr, SelectorExpr.sel, constSelector.sel]
  · by_cases hv : (if table.index c = "" then otherwise else table.index c) = ""
    · refine ⟨nilSelector, by simp [hconst, hrun, hv], Or.inl rfl, ?_⟩
      intro evt
      simp [nilSelector, SelectorExpr.sel, emptySelector.sel, hv]
    · refine ⟨ConstSelectorExpr _, by simp [hconst, hrun, hv], Or.inr ⟨_, hv, rfl⟩, ?_⟩
      intro evt
      simp [ConstSelectorExpr, SelectorExpr.sel, constSelector.sel]

/-- The conditional put around a folded expression acts as a conditional node:
the empty expression is left bare and yields the empty string either way. -/
theorem buildSingle.wrap_sel (sel : SelectorExpr) (cond : Option Condition)
    (evt : Option Event) (v : String) (hsel : sel.sel evt = (v, none))
    (hnil : sel = nilSelector ∨ ∃ w, w ≠ "" ∧ sel = ConstSelectorExpr w) :
    (buildSingle.wrap sel cond).sel evt =
      match cond with
      | some c => if c.Check evt then (v, none) else ("", none)
      | none => (v, none) := by
  cases cond with
  | none => simpa [buildSingle.wrap] using hsel
  | some c =>
    rcases hnil with rfl | ⟨w, _, rfl⟩
    · have hv : v = "" := by
        simpa [nilSelector, SelectorExpr.sel, emptySelector.sel] using
          (congrArg Prod.fst hsel).symm
      simp [buildSingle.wrap, nilSelector, SelectorExpr.isNilSelector, SelectorExpr.sel,
        emptySelector.sel, hv]
    · have hv : v = w := by
        simpa [ConstSelectorExpr, SelectorExpr.sel, constSelector.sel] using
          (congrArg Prod.fst hsel).symm
      cases hck : c.Check evt <;>
        simp [buildSingle.wrap, ConstSelectorExpr, SelectorExpr.isNilSelector,
          ConditionalSelectorExpr, SelectorExpr.sel, condSelector.sel, condSelector.run,
          constSelector.sel, hck, hv]

/-- The value of the unfolded tree of a template that renders `c` on the event. -/
theorem unfoldedSingle_sel (evtfmt : EventFormatString) (otherwise : String)
    (table : GoMap) (cond : Option Condition) (evt : Option Event) (c : String)
    (hrun : evtfmt.Run evt = (c, none)) :
    (unfoldedSingle evtfmt otherwise table cond).sel evt =
      match cond with
      | some cnd =>
        if cnd.Check evt then
          (if table.nonEmpty then
            (if c = "" then otherwise
             else if table.index c = "" then otherwise else table.index c)
           else if c = "" then otherwise else c, none)
        else ("", none)
      | none =>
        (if table.nonEmpty then
          (if c = "" then otherwise
           else if table.index c = "" then otherwise else table.index c)
         else if c = "" then otherwise else c, none) := by
  have hbase : ∀ (b : Bool),
      (if b = true then SelectorExpr.map (.fmt evtfmt "") otherwise table
        else SelectorExpr.fmt evtfmt otherwise).sel evt =
      (if b = true then
          (if c = "" then otherwise
           else if table.index c = "" then otherwise else table.index c)
         else if c = "" then otherwise else c, none) := by
    intro b
    cases b
    · by_cases hc : c = "" <;> simp [SelectorExpr.sel, fmtSelector.sel, hrun, hc]
    · by_cases hc : c = ""
      · simp [SelectorExpr.sel, mapSelector.sel, fmtSelector.sel, hrun, hc]
      · by_cases hi : table.index c = "" <;>
          simp [SelectorExpr.sel, mapSelector.sel, fmtSelector.sel, hrun, hc, hi]
  cases cond with
  | none => simpa [unfoldedSingle] using hbase table.nonEmpty
  | some cnd =>
    cases hck : cnd.Check evt
    · simp [unfoldedSingle, SelectorExpr.sel, condSelector.sel, condSelector.run, hck]
    · have := hbase table.nonEmpty
      simp only [unfoldedSingle, SelectorExpr.sel, condSelector.sel, condSelector.run, hck]
      simpa using this

section fold

variable {Config CondConfig : Type}

/-- C1, as amended: for a selector entry whose key template has no event-field
reference and renders the constant `c` on every event, `buildSingle` returns an
expression that yields on every event the same pair as the unfolded tree,
whenever `c` is non-empty, or `c` is empty and, without a table, the default is
empty too, or, with a table, the table has no non-empty value under the empty
key. -/
theorem buildSingle_fold_equiv (api : ConfigAPI Config CondConfig) (cfg : Config)
    (key str : String) (evtfmt : EventFormatString) (otherwise : String) (table : GoMap)
    (cond : Option Condition) (c : String)
    (hkey : api.HasField cfg key = true) (hstr : api.StringOf cfg key = .ok str)
    (hcomp : api.CompileEvent str = .ok evtfmt)
    (hdef : buildSingle.otherwise api cfg = .ok otherwise)
    (hmap : buildSingle.mapping api cfg = .ok table)
    (hcond : buildSingle.cond api cfg = .ok cond)
    (hconst : evtfmt.IsConst = true) (hrun : ∀ evt, evtfmt.Run evt = (c, none))
    (hside : c ≠ "" ∨ (table.nonEmpty = false ∧ otherwise = "") ∨
      (table.nonEmpty = true ∧ table.index "" = "")) :
    ∃ sel, buildSingle api cfg key = .ok sel ∧
      ∀ evt, sel.sel evt = (unfoldedSingle evtfmt otherwise table cond).sel evt := by
  obtain ⟨sel0, hs, hshape, hval⟩ :=
    buildSingle.selector_const evtfmt otherwise table c hconst (hrun none)
  refine ⟨buildSingle.wrap sel0 cond, by simp [buildSingle, hkey, hstr, hcomp, hdef, hmap,
    hcond, hs], ?_⟩
  intro evt
  rw [buildSingle.wrap_sel sel0 cond evt _ (hval evt) hshape,
    unfoldedSingle_sel evtfmt otherwise table cond evt c (hrun evt)]
  have hpair : (if table.nonEmpty = true then
        (if table.index c = "" then otherwise else table.index c) else c) =
      (if table.nonEmpty = true then
        (if c = "" then otherwise
         else if table.index c = "" then otherwise else table.index c)
       else if c = "" then otherwise else c) := by
    rcases hside with hc | ⟨ht, ho⟩ | ⟨ht, hi⟩
    · simp [hc]
    · by_cases hc : c = ""
      · simp [ht, ho, hc]
      · simp [hc]
    · by_cases hc : c = ""
      · simp [ht, hi, hc]
      · simp [hc]
  cases cond with
  | none => simp only [hpair]
  | some cnd => simp only [hpair]

/-- C1, witness: a constant key under a table, a default and a condition. -/
theorem buildSingle_fold_equiv_witness :
    ∃ sel, buildSingle exampleAPI
        (.entry ⟨some "abc", some "x", some [("abc", "v")], some true⟩) "index" = .ok sel ∧
      ∀ evt, sel.sel evt =
        (unfoldedSingle (exampleCompile "abc") "x" [("abc", "v")]
          (some ⟨fun _ => true⟩)).sel evt :=
  buildSingle_fold_equiv exampleAPI
    (.entry ⟨some "abc", some "x", some [("abc", "v")], some true⟩) "index" "abc"
    (exampleCompile "abc") "x" [("abc", "v")] (some ⟨fun _ => true⟩) "abc"
    rfl rfl rfl rfl rfl rfl rfl (fun _ => rfl) (Or.inl (by decide))

/-- C1, counterexample: the key template is the empty constant and the default is
`x`, with no table and no condition.  `buildSingle` returns the empty
expression, which yields the empty string, while the unfolded format node
yields the default `x`. -/
theorem buildSingle_fold_counterexample :
    (exampleCompile "").IsConst = true ∧
    ∃ sel, buildSingle exampleAPI (.entry ⟨some "", some "x", none, none⟩) "index" = .ok sel ∧
      sel.sel (some bobEvent) = ("", none) ∧
      (unfoldedSingle (exampleCompile "") "x" [] none).sel (some bobEvent) = ("x", none) ∧
      sel.sel (some bobEvent) ≠
        (unfoldedSingle (exampleCompile "") "x" [] none).sel (some bobEvent) :=
  ⟨rfl, nilSelector, rfl, by decide, by decide, by decide⟩

/-- C10, as amended: for a selector entry without a mappings table whose key
template has no event-field reference and renders `c` at build time,
`buildSingle` returns the empty expression if `c` is empty, and otherwise a
const node holding `c`, bare when the entry has no condition and inside a
conditional node when it has one.  For the single-key shorthand of
`BuildSelectorFromConfig` an empty constant adds no expression to those of the
multi-entry field and a non-empty one adds a const node holding it. -/
theorem buildSingle_const_fold (api : ConfigAPI Config CondConfig) (cfg : Config)
    (key str : String) (evtfmt : EventFormatString) (otherwise : String) (table : GoMap)
    (cond : Option Condition) (c : String)
    (top : Config) (settings : Settings) (str2 : String) (fmtstr : EventFormatString)
    (c2 : String) (sel0 : List SelectorExpr)
    (hkey : api.HasField cfg key = true) (hstr : api.StringOf cfg key = .ok str)
    (hcomp : api.CompileEvent str = .ok evtfmt)
    (hdef : buildSingle.otherwise api cfg = .ok otherwise)
    (hmap : buildSingle.mapping api cfg = .ok table) (htab : table.nonEmpty = false)
    (hcond : buildSingle.cond api cfg = .ok cond)
    (hconst : evtfmt.IsConst = true) (hrun : evtfmt.Run none = (c, none))
    (hmulti : BuildSelectorFromConfig.multi api top settings = .ok sel0)
    (hsingle : settings.EnableSingleOnly = true)
    (hkey2 : api.HasField top settings.Key = true)
    (hstr2 : api.StringOf top settings.Key = .ok str2)
    (hcomp2 : api.CompileEvent str2 = .ok fmtstr)
    (hconst2 : fmtstr.IsConst = true) (hrun2 : fmtstr.Run none = (c2, none)) :
    (c = "" → buildSingle api cfg key = .ok nilSelector) ∧
    (c ≠ "" → cond = none → buildSingle api cfg key = .ok (ConstSelectorExpr c)) ∧
    (c ≠ "" → ∀ cnd, cond = some cnd →
      buildSingle api cfg key = .ok (ConditionalSelectorExpr (ConstSelectorExpr c) cnd)) ∧
    (c2 = "" → BuildSelectorFromConfig api top settings = .ok (MakeSelector sel0)) ∧
    (c2 ≠ "" → BuildSelectorFromConfig api top settings =
      .ok (MakeSelector (sel0 ++ [ConstSelectorExpr c2]))) := by
  refine ⟨?_, ?_, ?_, ?_, ?_⟩
  · intro hc
    cases cond <;>
      simp [buildSingle, hkey, hstr, hcomp, hdef, hmap, hcond, buildSingle.selector, htab,
        hconst, hrun, hc, buildSingle.wrap, nilSelector, SelectorExpr.isNilSelector]
  · intro hc hn
    simp [buildSingle, hkey, hstr, hcomp, hdef, hmap, hcond, buildSingle.selector, htab,
      hconst, hrun, hc, hn, buildSingle.wrap]
  · intro hc cnd hn
    simp [buildSingle, hkey, hstr, hcomp, hdef, hmap, hcond, buildSingle.selector, htab,
      hconst, hrun, hc, hn, buildSingle.wrap, ConstSelectorExpr,
      SelectorExpr.isNilSelector]
  · intro hc
    simp [BuildSelectorFromConfig, hmulti, BuildSelectorFromConfig.single, hsingle, hkey2,
      hstr2, hcomp2, hconst2, hrun2, hc, BuildSelectorFromConfig.found]
  · intro hc
    simp [BuildSelectorFromConfig, hmulti, BuildSelectorFromConfig.single, hsingle, hkey2,
      hstr2, hcomp2, hconst2, hrun2, hc, BuildSelectorFromConfig.found]

/-- C10, witness: the constant key `abc` under a condition, and the single key
`logs` after a list whose one entry folds to the empty expression. -/
theorem buildSingle_const_fold_witness :
    buildSingle exampleAPI (.entry ⟨some "abc", some "x", none, some true⟩) "index" =
      .ok (ConditionalSelectorExpr (ConstSelectorExpr "abc") ⟨fun _ => true⟩) ∧
    BuildSelectorFromConfig exampleAPI
      (.root (some "logs") (some [⟨some "", none, none, none⟩]))
      ⟨"index", "indices", true, true⟩ = .ok (MakeSelector ([] ++ [ConstSelectorExpr "logs"])) :=
  have h := buildSingle_const_fold exampleAPI
    (.entry ⟨some "abc", some "x", none, some true⟩) "index" "abc" (exampleCompile "abc")
    "x" [] (some ⟨fun _ => true⟩) "abc"
    (.root (some "logs") (some [⟨some "", none, none, none⟩]))
    ⟨"index", "indices", true, true⟩ "logs" (exampleCompile "logs") "logs" []
    rfl rfl rfl rfl rfl rfl rfl rfl rfl rfl rfl rfl rfl rfl rfl rfl
  ⟨h.2.2.1 (by decide) ⟨fun _ => true⟩ rfl, h.2.2.2.2 (by decide)⟩

/-- C10, counterexample: the entry has the constant key `abc`, no mappings table
and a condition.  `buildSingle` returns a conditional node, which is neither the
empty expression nor a const node. -/
theorem buildSingle_const_fold_counterexample :
    (exampleCompile "abc").IsConst = true ∧
    (exampleCompile "abc").Run none = ("abc", none) ∧
    exampleAPI.HasField (.entry ⟨some "abc", none, none, some true⟩) "mappings" = false ∧
    ∃ sel, buildSingle exampleAPI (.entry ⟨some "abc", none, none, some true⟩) "index" =
        .ok sel ∧
      sel.isConstSelector = false ∧ sel.isNilSelector = false :=
  ⟨rfl, rfl, rfl, _, rfl, rfl, rfl⟩

end fold

/-! ## Building from configuration -/

section config

variable {Config CondConfig : Type}

/-- The loop over the entries fails at an entry that `buildSingle` rejects, with
the error of the first entry rejected. -/
theorem BuildSelectorFromConfig.entries_error (api : ConfigAPI Config CondConfig)
    (key : String) (pre post : List Config) (entry : Config) (e0 : Error)
    (h : buildSingle api entry key = .error e0) (acc : List SelectorExpr) :
    ∃ err, BuildSelectorFromConfig.entries api key (pre ++ entry :: post) acc = .error err ∧
      (∃ p ∈ pre ++ [entry], buildSingle api p key = .error err) ∧
      ((∀ p ∈ pre, ∃ s, buildSingle api p key = .ok s) → err = e0) := by
  induction pre generalizing acc with
  | nil =>
    refine ⟨e0, by simp [BuildSelectorFromConfig.entries, h], ⟨entry, by simp, h⟩, fun _ => rfl⟩
  | cons p ps ih =>
    cases hp : buildSingle api p key with
    | error e =>
      refine ⟨e, by simp [BuildSelectorFromConfig.entries, hp], ⟨p, by simp, hp⟩, ?_⟩
      intro hall
      obtain ⟨s, hs⟩ := hall p (List.mem_cons_self _ _)
      rw [hp] at hs
      cases hs
    | ok action =>
      obtain ⟨err, herr, ⟨q, hq, hqe⟩, hfirst⟩ :=
        ih (if !action.isNilSelector then acc ++ [action] else acc)
      refine ⟨err, by simpa [BuildSelectorFromConfig.entries, hp] using herr, ⟨q, ?_, hqe⟩, ?_⟩
      · simp only [List.cons_append, List.mem_cons]
        exact Or.inr hq
      · intro hall
        exact hfirst (fun r hr => hall r (List.mem_cons_of_mem _ hr))

/-- The error of the loop over the entries is that of the first entry that
`buildSingle` rejects: every entry before it builds. -/
theorem BuildSelectorFromConfig.entries_first (api : ConfigAPI Config CondConfig)
    (key : String) (pre post : List Config) (entry : Config) (e0 : Error)
    (h : buildSingle api entry key = .error e0) (acc : List SelectorExpr) :
    ∃ err pre1 e1 post1,
      BuildSelectorFromConfig.entries api key (pre ++ entry :: post) acc = .error err ∧
      pre ++ [entry] = pre1 ++ e1 :: post1 ∧
      (∀ p ∈ pre1, ∃ s, buildSingle api p key = .ok s) ∧
      buildSingle api e1 key = .error err := by
  induction pre generalizing acc with
  | nil =>
    exact ⟨e0, [], entry, [], by simp [BuildSelectorFromConfig.entries, h], rfl,
      fun _ hp => absurd hp (List.not_mem_nil _), h⟩
  | cons p ps ih =>
    cases hp : buildSingle api p key with
    | error e =>
      exact ⟨e, [], p, ps ++ [entry], by simp [BuildSelectorFromConfig.entries, hp], rfl,
        fun _ hq => absurd hq (List.not_mem_nil _), hp⟩
    | ok action =>
      obtain ⟨err, pre1, e1, post1, herr, hsplit, hok, he1⟩ :=
        ih (if !action.isNilSelector then acc ++ [action] else acc)
      refine ⟨err, p :: pre1, e1, post1,
        by simpa [BuildSelectorFromConfig.entries, hp] using herr, ?_, ?_, he1⟩
      · rw [List.cons_append, hsplit, List.cons_append]
      · intro q hq
        rcases List.mem_cons.mp hq with rfl | hq
        · exact ⟨action, hp⟩
        · exact hok q hq

/-- C11: `BuildSelectorFromConfig` returns the `missing required` error when
`FailEmpty` is set and the config has neither the multi-entry field nor, with
`EnableSingleOnly`, the single-key field; in every other case what it returns
is the outcome of the two blocks that read the fields, so an error is one of
theirs; and when `FailEmpty` is not set and neither form is present it returns
the empty selector and no error. -/
theorem BuildSelectorFromConfig_fail_empty (api : ConfigAPI Config CondConfig)
    (cfg : Config) (settings : Settings) :
    ((settings.FailEmpty = true ∧ api.HasField cfg settings.MultiKey = false ∧
        (settings.EnableSingleOnly = true → api.HasField cfg settings.Key = false)) →
      BuildSelectorFromConfig api cfg settings =
        .error (if settings.EnableSingleOnly = true then
          "missing required \x27" ++ settings.Key ++ "\x27 or \x27" ++
            settings.MultiKey ++ "\x27 in " ++ api.Path cfg
        else "missing required \x27" ++ settings.MultiKey ++ "\x27 in " ++ api.Path cfg)) ∧
    (¬ (settings.FailEmpty = true ∧ api.HasField cfg settings.MultiKey = false ∧
        (settings.EnableSingleOnly = true → api.HasField cfg settings.Key = false)) →
      BuildSelectorFromConfig api cfg settings =
        match BuildSelectorFromConfig.multi api cfg settings with
        | .error err => .error err
        | .ok sel =>
          match BuildSelectorFromConfig.single api cfg settings sel with
          | .error err => .error err
          | .ok sel => .ok (MakeSelector sel)) ∧
    ((settings.FailEmpty = false ∧ api.HasField cfg settings.MultiKey = false ∧
        (settings.EnableSingleOnly = true → api.HasField cfg settings.Key = false)) →
      BuildSelectorFromConfig api cfg settings = .ok ⟨nilSelector⟩ ∧
      MakeSelector [] = ⟨nilSelector⟩) := by
  have hfound : (api.HasField cfg settings.MultiKey = false ∧
      (settings.EnableSingleOnly = true → api.HasField cfg settings.Key = false)) ↔
      BuildSelectorFromConfig.found api cfg settings = false := by
    unfold BuildSelectorFromConfig.found
    cases api.HasField cfg settings.MultiKey <;> cases settings.EnableSingleOnly <;>
      cases api.HasField cfg settings.Key <;> simp
  have hnone : BuildSelectorFromConfig.found api cfg settings = false →
      BuildSelectorFromConfig.multi api cfg settings = .ok [] ∧
      BuildSelectorFromConfig.single api cfg settings [] = .ok [] := by
    intro hf
    unfold BuildSelectorFromConfig.found at hf
    simp only [Bool.or_eq_false_iff] at hf
    exact ⟨by simp [BuildSelectorFromConfig.multi, hf.1],
      by simp [BuildSelectorFromConfig.single, hf.2]⟩
  refine ⟨?_, ?_, ?_⟩
  · rintro ⟨hfail, hno⟩
    have hf := hfound.mp hno
    obtain ⟨hm, hs⟩ := hnone hf
    cases hso : settings.EnableSingleOnly <;>
      simp [BuildSelectorFromConfig, hm, hs, hfail, hf, hso]
  · intro hnot
    have hcond : (settings.FailEmpty && !BuildSelectorFromConfig.found api cfg settings) =
        false := by
      cases hfe : settings.FailEmpty
      · rfl
      · cases hf : BuildSelectorFromConfig.found api cfg settings
        · exact absurd ⟨hfe, hfound.mpr hf⟩ hnot
        · rfl
    unfold BuildSelectorFromConfig
    simp only [hcond, Bool.false_eq_true, if_false]
  · rintro ⟨hfail, hno⟩
    have hf := hfound.mp hno
    obtain ⟨hm, hs⟩ := hnone hf
    exact ⟨by simp [BuildSelectorFromConfig, hm, hs, hfail, MakeSelector], rfl⟩

/-- C12, as amended: when the multi-entry list holds an entry without the key
field, `buildSingle` returns the `missing` error for that entry and
`BuildSelectorFromConfig` returns an error and no selector, whatever the other
entries, the single key and `FailEmpty` are.  The error is that of the first
entry of the list that `buildSingle` rejects, hence the `missing` error of this
entry when every entry before it builds. -/
theorem BuildSelectorFromConfig_missing_key (api : ConfigAPI Config CondConfig)
    (cfg sub : Config) (settings : Settings) (pre post : List Config) (entry : Config)
    (hmulti : api.HasField cfg settings.MultiKey = true)
    (hchild : api.Child cfg settings.MultiKey = .ok sub)
    (htable : api.UnpackTable sub = .ok (pre ++ entry :: post))
    (hkey : api.HasField entry settings.Key = false) :
    buildSingle api entry settings.Key =
      .error ("missing " ++ api.PathOf entry settings.Key) ∧
    (∃ err, BuildSelectorFromConfig api cfg settings = .error err ∧
      ∃ p ∈ pre ++ [entry], buildSingle api p settings.Key = .error err) ∧
    ((∀ p ∈ pre, ∃ s, buildSingle api p settings.Key = .ok s) →
      BuildSelectorFromConfig api cfg settings =
        .error ("missing " ++ api.PathOf entry settings.Key)) ∧
    (∃ err pre1 e1 post1, BuildSelectorFromConfig api cfg settings = .error err ∧
      pre ++ [entry] = pre1 ++ e1 :: post1 ∧
      (∀ p ∈ pre1, ∃ s, buildSingle api p settings.Key = .ok s) ∧
      buildSingle api e1 settings.Key = .error err) := by
  have hsingle : buildSingle api entry settings.Key =
      .error ("missing " ++ api.PathOf entry settings.Key) := by
    simp [buildSingle, hkey]
  obtain ⟨err, herr, hwho, hfirst⟩ :=
    BuildSelectorFromConfig.entries_error api settings.Key pre post entry _ hsingle []
  have hbuild : BuildSelectorFromConfig api cfg settings = .error err := by
    simp [BuildSelectorFromConfig, BuildSelectorFromConfig.multi, hmulti, hchild, htable, herr]
  obtain ⟨err2, pre1, e1, post1, herr2, hsplit, hok, he1⟩ :=
    BuildSelectorFromConfig.entries_first api settings.Key pre post entry _ hsingle []
  have hbuild2 : BuildSelectorFromConfig api cfg settings = .error err2 := by
    simp [BuildSelectorFromConfig, BuildSelectorFromConfig.multi, hmulti, hchild, htable,
      herr2]
  refine ⟨hsingle, ⟨err, hbuild, hwho⟩, ?_, ⟨err2, pre1, e1, post1, hbuild2, hsplit, hok, he1⟩⟩
  intro hall
  rw [hbuild, hfirst hall]

/-- C11, witness: with `FailEmpty` and neither field present the error is
returned; with the single key present, or without `FailEmpty`, it is not. -/
theorem BuildSelectorFromConfig_fail_empty_witness :
    BuildSelectorFromConfig exampleAPI (.root none none) ⟨"index", "indices", true, true⟩ =
      .error "missing required \x27index\x27 or \x27indices\x27 in output" ∧
    BuildSelectorFromConfig exampleAPI (.root (some "logs") none)
      ⟨"index", "indices", false, true⟩ =
      .error "missing required \x27indices\x27 in output" ∧
    BuildSelectorFromConfig exampleAPI (.root none none) ⟨"index", "indices", true, false⟩ =
      .ok ⟨nilSelector⟩ :=
  ⟨(BuildSelectorFromConfig_fail_empty exampleAPI (.root none none)
      ⟨"index", "indices", true, true⟩).1 ⟨rfl, rfl, fun _ => rfl⟩,
   (BuildSelectorFromConfig_fail_empty exampleAPI (.root (some "logs") none)
      ⟨"index", "indices", false, true⟩).1 ⟨rfl, rfl, fun h => by cases h⟩,
   ((BuildSelectorFromConfig_fail_empty exampleAPI (.root none none)
      ⟨"index", "indices", true, false⟩).2.2 ⟨rfl, rfl, fun _ => rfl⟩).1⟩

/-- C12, witness: the second of three entries has no key, the single key is
present and `FailEmpty` is not set. -/
theorem BuildSelectorFromConfig_missing_key_witness :
    BuildSelectorFromConfig exampleAPI
      (.root (some "logs")
        (some [⟨some "a", none, none, none⟩, ⟨none, some "x", none, none⟩,
          ⟨some "b", none, none, none⟩]))
      ⟨"index", "indices", true, false⟩ = .error "missing index" :=
  (BuildSelectorFromConfig_missing_key exampleAPI
    (.root (some "logs")
      (some [⟨some "a", none, none, none⟩, ⟨none, some "x", none, none⟩,
        ⟨some "b", none, none, none⟩]))
    (.entries [⟨some "a", none, none, none⟩, ⟨none, some "x", none, none⟩,
      ⟨some "b", none, none, none⟩])
    ⟨"index", "indices", true, false⟩
    [.entry ⟨some "a", none, none, none⟩] [.entry ⟨some "b", none, none, none⟩]
    (.entry ⟨none, some "x", none, none⟩) rfl rfl rfl rfl).2.2.1
    (fun p hp => by
      rw [List.mem_singleton] at hp
      subst hp
      exact ⟨_, rfl⟩)

/-- C12, counterexample: the second entry has no key, and the first has a
template that does not compile.  `BuildSelectorFromConfig` returns the error of
the first entry, not the `missing` error that `buildSingle` returns for the
second. -/
theorem BuildSelectorFromConfig_missing_key_counterexample :
    exampleAPIChecked.HasField (.entry ⟨none, none, none, none⟩) "index" = false ∧
    buildSingle exampleAPIChecked (.entry ⟨none, none, none, none⟩) "index" =
      .error "missing index" ∧
    BuildSelectorFromConfig exampleAPIChecked
      (.root none (some [⟨some "%\x7b", none, none, none⟩, ⟨none, none, none, none⟩]))
      ⟨"index", "indices", false, false⟩ = .error "missing closing brace in index" ∧
    ("missing closing brace in index" : Error) ≠ "missing index" :=
  ⟨rfl, rfl, rfl, by decide⟩

end config

end outil

/-! ## The guard of the client acker -/

namespace pipeline

open beat

section guardThms

variable {σ : Type}

/-- On a guard whose flag is false a sequence of calls leaves the flag false,
returns false from every `addEvent`, and hands on to the wrapped acker the
calls other than `addEvent`, in order. -/
theorem clientACKer.run_closed (impl : pipeline.acker σ)
    (calls : List ackerCall) (a : clientACKer (σ × List ackerCall))
    (h : a.active = false) :
    (clientACKer.run impl.recorded a calls).1.active = false ∧
    (∀ b ∈ (clientACKer.run impl.recorded a calls).2, b = false) ∧
    (clientACKer.run impl.recorded a calls).1.acker.2 =
      a.acker.2 ++ calls.filter (fun c => !c.isAddEvent) := by
  induction calls generalizing a with
  | nil => simp [clientACKer.run, h]
  | cons c rest ih =>
    cases c with
    | addEvent event published =>
      have hadd : clientACKer.addEvent impl.recorded a event published = (a, false) := by
        simp [clientACKer.addEvent, h]
      obtain ⟨h1, h2, h3⟩ := ih a h
      simp only [clientACKer.run, hadd]
      refine ⟨h1, ?_, ?_⟩
      · intro b hb
        rcases List.mem_cons.mp hb with hb | hb
        · exact hb
        · exact h2 b hb
      · simpa [ackerCall.isAddEvent] using h3
    | ackEvents n =>
      obtain ⟨h1, h2, h3⟩ := ih (clientACKer.ackEvents impl.recorded a n)
        (by simp [clientACKer.ackEvents, h])
      simp only [clientACKer.run]
      refine ⟨h1, h2, ?_⟩
      rw [h3]
      simp [clientACKer.ackEvents, acker.recorded, ackerCall.isAddEvent]
    | close =>
      obtain ⟨h1, h2, h3⟩ := ih (clientACKer.close impl.recorded a)
        (by simp [clientACKer.close, clientACKer.store])
      simp only [clientACKer.run]
      refine ⟨h1, h2, ?_⟩
      rw [h3]
      simp [clientACKer.close, clientACKer.store, acker.recorded, ackerCall.isAddEvent]

/-- C13: a guard is lifted over an acker, takes any calls, and is closed.  Then
`Active()` is false, and after every further sequence of `addEvent`,
`ackEvents` and `close` calls `Active()` is still false, every `addEvent` has
returned false, and the calls the wrapped acker has received since are those
of the sequence without its `addEvent` calls. -/
theorem clientACKer_closed_invariant (impl : pipeline.acker σ)
    (a0 : clientACKer (σ × List ackerCall)) (s : σ) (before later : List ackerCall) :
    (clientACKer.close impl.recorded
      (clientACKer.run impl.recorded (a0.lift (s, [])) before).1).Active = false ∧
    (clientACKer.run impl.recorded (clientACKer.close impl.recorded
      (clientACKer.run impl.recorded (a0.lift (s, [])) before).1) later).1.Active = false ∧
    (∀ b ∈ (clientACKer.run impl.recorded (clientACKer.close impl.recorded
      (clientACKer.run impl.recorded (a0.lift (s, [])) before).1) later).2, b = false) ∧
    (clientACKer.run impl.recorded (clientACKer.close impl.recorded
      (clientACKer.run impl.recorded (a0.lift (s, [])) before).1) later).1.acker.2 =
      (clientACKer.close impl.recorded
        (clientACKer.run impl.recorded (a0.lift (s, [])) before).1).acker.2 ++
        later.filter (fun c => !c.isAddEvent) ∧
    (∀ c ∈ later.filter (fun c => !c.isAddEvent), c.isAddEvent = false) := by
  have hclosed : (clientACKer.close impl.recorded
      (clientACKer.run impl.recorded (a0.lift (s, [])) before).1).active = false := by
    simp [clientACKer.close, clientACKer.store]
  obtain ⟨h1, h2, h3⟩ := clientACKer.run_closed impl later _ hclosed
  refine ⟨hclosed, h1, h2, h3, ?_⟩
  intro c hc
  simpa using (List.mem_filter.mp hc).2

/-- C14: on an active guard as on a closed one, `ackEvents(n)` reaches the wrapped
acker once, with the same `n`, and changes nothing else. -/
theorem clientACKer_ackEvents_forwarded (impl : pipeline.acker σ)
    (a : clientACKer (σ × List ackerCall)) (n : Int) :
    (clientACKer.ackEvents impl.recorded a n).acker =
      (impl.ackEvents a.acker.1 n, a.acker.2 ++ [.ackEvents n]) ∧
    (clientACKer.ackEvents impl.recorded a n).active = a.active ∧
    (clientACKer.run impl.recorded a [.ackEvents n]).1.acker.2 =
      a.acker.2 ++ [.ackEvents n] :=
  ⟨rfl, rfl, rfl⟩

/-- C15: `close` first stores false in the flag and then calls the wrapped
`close`, once.  After its first step the flag is false, an `addEvent` on the
guard returns false without reaching the wrapped acker, and the wrapped acker
has received no call yet; its second step is the wrapped `close`. -/
theorem clientACKer_close_order (impl : pipeline.acker σ)
    (a : clientACKer (σ × List ackerCall)) (event : Event) (published : Bool) :
    ((raceState.start a).step impl.recorded event published .closer).guard = a.store false ∧
    ((raceState.start a).step impl.recorded event published .closer).actions =
      [.storeFalse] ∧
    (a.store false).Active = false ∧
    (a.store false).acker.2 = a.acker.2 ∧
    clientACKer.addEvent impl.recorded (a.store false) event published =
      (a.store false, false) ∧
    ((raceState.start a).steps impl.recorded event published [.closer, .closer]).actions =
      [.storeFalse, .wrappedClose] ∧
    ((raceState.start a).steps impl.recorded event published [.closer, .closer]).guard =
      clientACKer.close impl.recorded a ∧
    (clientACKer.close impl.recorded a).acker =
      (impl.close a.acker.1, a.acker.2 ++ [.close]) ∧
    (clientACKer.close impl.recorded a).Active = false := by
  refine ⟨rfl, rfl, rfl, rfl, ?_, rfl, rfl, rfl, rfl⟩
  simp [clientACKer.addEvent, clientACKer.store]

/-- The two steps of `addEvent`, taken without another goroutine in between, are
the method `addEvent`. -/
theorem raceState.steps_adder (impl : pipeline.acker σ) (a : clientACKer σ)
    (event : Event) (published : Bool) :
    ((raceState.start a).steps impl event published [.adder, .adder]).guard =
      (clientACKer.addEvent impl a event published).1 ∧
    ((raceState.start a).steps impl event published [.adder, .adder]).result =
      some (clientACKer.addEvent impl a event published).2 := by
  cases h : a.active <;>
    simp [raceState.steps, raceState.step, raceState.start, clientACKer.addEvent, h]

/-- C19, as amended: one `close` and one `addEvent` run on an active guard, their
steps interleaved in any way.  Both calls return, the flag ends false and the
wrapped `close` is called once.  If `addEvent` loads the flag before `close`
stores false, the wrapped acker receives the event once and `addEvent` returns
its answer; if it loads the flag after the store, `addEvent` returns false and
the wrapped acker receives no `addEvent`. -/
theorem clientACKer_race (impl : pipeline.acker σ) (a : clientACKer (σ × List ackerCall))
    (event : Event) (published : Bool) (sched : List raceThread)
    (hactive : a.active = true) (hsched : sched ∈ raceSchedules) :
    ((raceState.start a).steps impl.recorded event published sched).closePc = 2 ∧
    ((raceState.start a).steps impl.recorded event published sched).guard.active = false ∧
    (((raceState.start a).steps impl.recorded event published sched).guard.acker.2.filter
      (fun c => !c.isAddEvent)) = a.acker.2.filter (fun c => !c.isAddEvent) ++ [.close] ∧
    (sched.head? = some .adder →
      ((raceState.start a).steps impl.recorded event published sched).loaded = some true ∧
      (∃ s, ((raceState.start a).steps impl.recorded event published sched).result =
        some (impl.addEvent s event published).2) ∧
      (((raceState.start a).steps impl.recorded event published sched).guard.acker.2.filter
        (fun c => c.isAddEvent)) =
        a.acker.2.filter (fun c => c.isAddEvent) ++ [.addEvent event published]) ∧
    (sched.head? = some .closer →
      ((raceState.start a).steps impl.recorded event published sched).loaded = some false ∧
      ((raceState.start a).steps impl.recorded event published sched).result = some false ∧
      (((raceState.start a).steps impl.recorded event published sched).guard.acker.2.filter
        (fun c => c.isAddEvent)) = a.acker.2.filter (fun c => c.isAddEvent)) := by
  simp only [raceSchedules, List.mem_cons, List.mem_singleton, List.not_mem_nil,
    or_false] at hsched
  rcases hsched with rfl | rfl | rfl | rfl | rfl | rfl <;>
    simp [raceState.steps, raceState.step, raceState.start, clientACKer.store, hactive,
      acker.recorded, ackerCall.isAddEvent, List.filter_append] <;>
    exact ⟨_, rfl⟩

/-- C19, witness: `addEvent` loads the flag, `close` runs, `addEvent` goes on. -/
theorem clientACKer_race_witness :
    ((raceState.start ((⟨(0, []), false⟩ : clientACKer (Nat × List ackerCall)).lift (0, []))).steps
      exampleAcker.recorded exampleEvent true
      [.adder, .closer, .closer, .adder]).result = some true :=
  have h := clientACKer_race exampleAcker
    ((⟨(0, []), false⟩ : clientACKer (Nat × List ackerCall)).lift (0, []))
    exampleEvent true [.adder, .closer, .closer, .adder] rfl (by decide)
  by
    obtain ⟨s, hs⟩ := (h.2.2.2.1 rfl).2.1
    rw [hs]
    rfl

/-- C19, counterexample: `addEvent` loads the flag while it is true, `close` then
stores false and calls the wrapped `close`, and `addEvent` goes on with the
wrapped `addEvent`: the wrapped acker receives the `addEvent` after the flag
was set to false, and after its own `close`. -/
theorem clientACKer_race_counterexample :
    [raceThread.adder, .closer, .closer, .adder] ∈ raceSchedules ∧
    ((raceState.start ((⟨(0, []), false⟩ : clientACKer (Nat × List ackerCall)).lift (0, []))).steps
      exampleAcker.recorded exampleEvent true [.adder, .closer, .closer, .adder]).actions =
      [.load true, .storeFalse, .wrappedClose, .wrappedAddEvent] ∧
    ((raceState.start ((⟨(0, []), false⟩ : clientACKer (Nat × List ackerCall)).lift (0, []))).steps
      exampleAcker.recorded exampleEvent true [.adder, .closer, .closer, .adder]).guard.acker.2 =
      [.close, .addEvent exampleEvent true] ∧
    ((raceState.start ((⟨(0, []), false⟩ : clientACKer (Nat × List ackerCall)).lift (0, []))).steps
      exampleAcker.recorded exampleEvent true [.adder, .closer, .closer, .adder]).guard.active =
      false :=
  ⟨by decide, rfl, rfl, rfl⟩

end guardThms

/-! ## The choice of the acker -/

section choice

variable {S α τ : Type}

/-- C16, as amended: when the configuration sets none of the ack callbacks,
`makeACKer` builds the pipeline acker if `waitClose` is zero or negative; if
`waitClose` is positive it builds a count acker whose callback does nothing,
inside a wait-close acker. -/
theorem makeACKer_no_callbacks (p : Pipeline S) (canDrop : Bool) (cfg : ClientConfig α τ)
    (waitClose : Int) (h1 : cfg.ACKCount = none) (h2 : cfg.ACKEvents = none)
    (h3 : cfg.ACKLastEvent = none) :
    (waitClose ≤ 0 →
      p.makeACKer canDrop cfg waitClose = .createPipelineACKer canDrop p.eventSema) ∧
    (0 < waitClose →
      p.makeACKer canDrop cfg waitClose =
        .newWaitACK (.createCountACKer canDrop p.eventSema (fun _ w => some w)) waitClose) := by
  constructor
  · intro hw
    simp [Pipeline.makeACKer, h1, h2, h3, hw]
  · intro hw
    have hnot : ¬ waitClose ≤ 0 := by omega
    simp [Pipeline.makeACKer, h1, h2, h3, hnot]

/-- C16, witness: no callback and no wait gives the pipeline acker. -/
theorem makeACKer_no_callbacks_witness :
    (⟨()⟩ : Pipeline Unit).makeACKer true (⟨none, none, none⟩ : ClientConfig Nat (List Nat)) 0 =
      .createPipelineACKer true () :=
  (makeACKer_no_callbacks ⟨()⟩ true ⟨none, none, none⟩ 0 rfl rfl rfl).1 (by decide)

/-- C16, counterexample: no callback and a wait of one nanosecond; the acker built
is a wait-close acker around a count acker, not the pipeline acker. -/
theorem makeACKer_no_callbacks_counterexample :
    ((⟨()⟩ : Pipeline Unit).makeACKer true
      (⟨none, none, none⟩ : ClientConfig Nat (List Nat)) 1).isPipelineACKer = false ∧
    (⟨()⟩ : Pipeline Unit).makeACKer true (⟨none, none, none⟩ : ClientConfig Nat (List Nat)) 1 =
      .newWaitACK (.createCountACKer true () (fun _ w => some w)) 1 :=
  ⟨rfl, rfl⟩

/-- C17: the acker `makeACKer` returns is a wait-close acker if and only if
`waitClose` is positive.  The acker chosen is the count acker with `ACKCount` if
that callback is set, else the event acker with `ACKEvents` if that one is set,
else the event acker with `lastEventACK(ACKLastEvent)` if that one is set, each
with the given `canDrop` and the semaphore of the pipeline; it is returned
inside `newWaitACK` with the given duration when `waitClose` is positive and
as it is when `waitClose` is zero or negative.  Without any callback a positive
`waitClose` decorates a count acker whose callback does nothing, and otherwise
the pipeline acker is returned undecorated. -/
theorem makeACKer_wait_decoration (p : Pipeline S) (canDrop : Bool)
    (cfg : ClientConfig α τ) (waitClose : Int) :
    ((p.makeACKer canDrop cfg waitClose).isWaitACK = true ↔ 0 < waitClose) ∧
    (0 < waitClose → ∃ inner, p.makeACKer canDrop cfg waitClose =
      .newWaitACK inner waitClose ∧ inner.isWaitACK = false) ∧
    (0 < waitClose →
      (cfg.ACKCount.isSome ∨ cfg.ACKEvents.isSome ∨ cfg.ACKLastEvent.isSome) →
      ∀ d : Int, d ≤ 0 → p.makeACKer canDrop cfg waitClose =
        .newWaitACK (p.makeACKer canDrop cfg d) waitClose) ∧
    (∀ fn, cfg.ACKCount = some fn →
      (0 < waitClose → p.makeACKer canDrop cfg waitClose =
        .newWaitACK (.createCountACKer canDrop p.eventSema fn) waitClose) ∧
      (waitClose ≤ 0 → p.makeACKer canDrop cfg waitClose =
        .createCountACKer canDrop p.eventSema fn)) ∧
    (∀ fn, cfg.ACKCount = none → cfg.ACKEvents = some fn →
      (0 < waitClose → p.makeACKer canDrop cfg waitClose =
        .newWaitACK (.createEventACKer canDrop p.eventSema fn) waitClose) ∧
      (waitClose ≤ 0 → p.makeACKer canDrop cfg waitClose =
        .createEventACKer canDrop p.eventSema fn)) ∧
    (∀ fn, cfg.ACKCount = none → cfg.ACKEvents = none → cfg.ACKLastEvent = some fn →
      (0 < waitClose → p.makeACKer canDrop cfg waitClose =
        .newWaitACK (.createEventACKer canDrop p.eventSema (lastEventACK fn)) waitClose) ∧
      (waitClose ≤ 0 → p.makeACKer canDrop cfg waitClose =
        .createEventACKer canDrop p.eventSema (lastEventACK fn))) ∧
    (cfg.ACKCount = none → cfg.ACKEvents = none → cfg.ACKLastEvent = none →
      (0 < waitClose → p.makeACKer canDrop cfg waitClose =
        .newWaitACK (.createCountACKer canDrop p.eventSema (fun _ w => some w)) waitClose) ∧
      (waitClose ≤ 0 → p.makeACKer canDrop cfg waitClose =
        .createPipelineACKer canDrop p.eventSema)) := by
  have hpin : ∀ (h : 0 < waitClose), ¬ waitClose ≤ 0 := fun h => by omega
  have hchoice :
      (∀ fn, cfg.ACKCount = some fn →
        (0 < waitClose → p.makeACKer canDrop cfg waitClose =
          .newWaitACK (.createCountACKer canDrop p.eventSema fn) waitClose) ∧
        (waitClose ≤ 0 → p.makeACKer canDrop cfg waitClose =
          .createCountACKer canDrop p.eventSema fn)) ∧
      (∀ fn, cfg.ACKCount = none → cfg.ACKEvents = some fn →
        (0 < waitClose → p.makeACKer canDrop cfg waitClose =
          .newWaitACK (.createEventACKer canDrop p.eventSema fn) waitClose) ∧
        (waitClose ≤ 0 → p.makeACKer canDrop cfg waitClose =
          .createEventACKer canDrop p.eventSema fn)) ∧
      (∀ fn, cfg.ACKCount = none → cfg.ACKEvents = none → cfg.ACKLastEvent = some fn →
        (0 < waitClose → p.makeACKer canDrop cfg waitClose =
          .newWaitACK (.createEventACKer canDrop p.eventSema (lastEventACK fn)) waitClose) ∧
        (waitClose ≤ 0 → p.makeACKer canDrop cfg waitClose =
          .createEventACKer canDrop p.eventSema (lastEventACK fn))) ∧
      (cfg.ACKCount = none → cfg.ACKEvents = none → cfg.ACKLastEvent = none →
        (0 < waitClose → p.makeACKer canDrop cfg waitClose =
          .newWaitACK (.createCountACKer canDrop p.eventSema (fun _ w => some w))
            waitClose) ∧
        (waitClose ≤ 0 → p.makeACKer canDrop cfg waitClose =
          .createPipelineACKer canDrop p.eventSema)) := by
    refine ⟨?_, ?_, ?_, ?_⟩
    · intro fn h1
      exact ⟨fun hw => by simp [Pipeline.makeACKer, h1, hpin hw],
        fun hw => by simp [Pipeline.makeACKer, h1, hw]⟩
    · intro fn h1 h2
      exact ⟨fun hw => by simp [Pipeline.makeACKer, h1, h2, hpin hw],
        fun hw => by simp [Pipeline.makeACKer, h1, h2, hw]⟩
    · intro fn h1 h2 h3
      exact ⟨fun hw => by simp [Pipeline.makeACKer, h1, h2, h3, hpin hw],
        fun hw => by simp [Pipeline.makeACKer, h1, h2, h3, hw]⟩
    · intro h1 h2 h3
      exact ⟨fun hw => by simp [Pipeline.makeACKer, h1, h2, h3, hpin hw],
        fun hw => by simp [Pipeline.makeACKer, h1, h2, h3, hw]⟩
  refine ⟨?_, ?_, ?_, hchoice⟩
  · by_cases hw : waitClose ≤ 0
    · have hn : ¬ 0 < waitClose := by omega
      rcases cfg with ⟨c1, c2, c3⟩
      cases c1 <;> cases c2 <;> cases c3 <;>
        simp [Pipeline.makeACKer, hw, hn, ackerTerm.isWaitACK]
    · have hp : 0 < waitClose := by omega
      rcases cfg with ⟨c1, c2, c3⟩
      cases c1 <;> cases c2 <;> cases c3 <;>
        simp [Pipeline.makeACKer, hw, hp, ackerTerm.isWaitACK]
  · intro hp
    have hw := hpin hp
    rcases cfg with ⟨c1, c2, c3⟩
    cases c1 <;> cases c2 <;> cases c3 <;>
      simp [Pipeline.makeACKer, hw, ackerTerm.isWaitACK]
  · intro hp hsome d hd
    have hw := hpin hp
    rcases cfg with ⟨c1, c2, c3⟩
    cases c1 <;> cases c2 <;> cases c3 <;>
      simp_all [Pipeline.makeACKer, ackerTerm.isWaitACK]

/-- C17, witness: with the callback `ACKCount` set, a wait of five nanoseconds
decorates the count acker holding that callback, and no wait returns it bare. -/
theorem makeACKer_wait_decoration_witness :
    (⟨()⟩ : Pipeline Unit).makeACKer true
      (⟨some (fun _ w => some w), none, some recordCall⟩ : ClientConfig Nat (List Nat)) 5 =
      .newWaitACK (.createCountACKer true () (fun _ w => some w)) 5 ∧
    (⟨()⟩ : Pipeline Unit).makeACKer true
      (⟨none, none, some recordCall⟩ : ClientConfig Nat (List Nat)) 0 =
      .createEventACKer true () (lastEventACK recordCall) :=
  ⟨((makeACKer_wait_decoration ⟨()⟩ true
      (⟨some (fun _ w => some w), none, some recordCall⟩ : ClientConfig Nat (List Nat))
      5).2.2.2.1 _ rfl).1 (by decide),
   ((makeACKer_wait_decoration ⟨()⟩ true
      (⟨none, none, some recordCall⟩ : ClientConfig Nat (List Nat))
      0).2.2.2.2.2.1 _ rfl rfl rfl).2 (by decide)⟩

/-- C18: on a batch that is not empty the callback `lastEventACK(fn)` is one call
of `fn`, on the last element of the batch; a callback that records its calls
has then been called with that element and no other. -/
theorem lastEventACK_last (fn : Callback α τ) (events : List α) (w : τ)
    (h : events ≠ []) :
    lastEventACK fn events w = fn (events.getLast h) w ∧
    lastEventACK recordCall events [] = some [events.getLast h] := by
  have hidx : events[events.length - 1]? = some (events.getLast h) := by
    rw [← List.getLast?_eq_getElem?, List.getLast?_eq_getLast events h]
  constructor
  · simp [lastEventACK, hidx]
  · simp [lastEventACK, hidx, recordCall]

/-- C18, witness: of the batch 1, 2, 3 only 3 reaches the callback. -/
theorem lastEventACK_last_witness :
    lastEventACK (recordCall : Callback Nat (List Nat)) [1, 2, 3] [] = some [3] :=
  (lastEventACK_last (recordCall : Callback Nat (List Nat)) [1, 2, 3] [] (by decide)).2

end choice

end pipeline

/-! ## The rename processor -/

namespace actions

open beat

/-- The loop of `Run` looks at the configuration only for its two flags. -/
theorem renameFields.Run.loop_congr (api : MapStrAPI) (f g : renameFields)
    (h1 : f.config.IgnoreMissing = g.config.IgnoreMissing)
    (h2 : f.config.FailOnError = g.config.FailOnError) (backup : MapStr)
    (l : List fromTo) (event : Event) :
    renameFields.Run.loop api f backup l event = renameFields.Run.loop api g backup l event := by
  induction l generalizing event with
  | nil => rfl
  | cons field rest ih =>
    simp only [renameFields.Run.loop, renameFields.renameField, h1, h2, ih]

/-- With `FailOnError`, the loop stops at the first pair whose renaming fails and
gives the event with the backup as fields, and the error. -/
theorem renameFields.Run.loop_fail (api : MapStrAPI) (f : renameFields)
    (hfail : f.config.FailOnError = true) (backup : MapStr) (pre post : List fromTo)
    (ft : fromTo) (event ev : Event) (err : Error)
    (hpre : renameFields.Run.loop api f backup pre event = (ev, none))
    (hft : (f.renameField api ft.From ft.To ev.Fields).2 = some err) :
    renameFields.Run.loop api f backup (pre ++ ft :: post) event =
      ({ event with Fields := backup }, some err) := by
  induction pre generalizing event with
  | nil =>
    simp only [renameFields.Run.loop, Prod.mk.injEq] at hpre
    rw [← hpre.1] at hft
    simp [renameFields.Run.loop, hft, hfail]
  | cons p ps ih =>
    simp only [renameFields.Run.loop, hfail, Bool.and_true] at hpre
    cases hr : (f.renameField api p.From p.To event.Fields).2 with
    | some e =>
      simp [hr] at hpre
    | none =>
      simp only [hr, Option.isSome_none, Bool.false_eq_true, if_false] at hpre
      have h2 := ih _ hpre
      show renameFields.Run.loop api f backup (p :: (ps ++ ft :: post)) event = _
      simp only [renameFields.Run.loop, hr, Option.isSome_none, Bool.false_and,
        Bool.false_eq_true, if_false]
      exact h2

/-- The loop either ends without error or has met a first pair whose renaming
fails. -/
theorem renameFields.Run.loop_cases (api : MapStrAPI) (f : renameFields)
    (backup : MapStr) (l : List fromTo)
    (event : Event) :
    (renameFields.Run.loop api f backup l event).2 = none ∨
    ∃ pre ft post ev err, l = pre ++ ft :: post ∧
      renameFields.Run.loop api f backup pre event = (ev, none) ∧
      (f.renameField api ft.From ft.To ev.Fields).2 = some err := by
  induction l generalizing event with
  | nil => exact Or.inl rfl
  | cons field rest ih =>
    cases hr : (f.renameField api field.From field.To event.Fields).2 with
    | some e => exact Or.inr ⟨[], field, rest, event, e, rfl, rfl, hr⟩
    | none =>
      have hstep : ∀ l2, renameFields.Run.loop api f backup (field :: l2) event =
          renameFields.Run.loop api f backup l2
            { event with Fields := (f.renameField api field.From field.To event.Fields).1 } := by
        intro l2
        simp [renameFields.Run.loop, hr]
      rcases ih { event with Fields := (f.renameField api field.From field.To event.Fields).1 }
        with h | ⟨pre, ft, post, ev, err, hl, hpre, hft⟩
      · exact Or.inl (by rw [hstep]; exact h)
      · exact Or.inr ⟨field :: pre, ft, post, ev, err, by rw [hl]; rfl,
          by rw [hstep]; exact hpre, hft⟩

/-- C20: with `FailOnError` set and a `Clone` that gives an equal copy, if the
pairs before some pair are renamed without error and renaming that pair fails,
`Run` returns that error and the event as it was before the call, the renames
already made undone; and `Run` returns a nil error unless there is such a
pair. -/
theorem renameFields_Run_atomic (api : MapStrAPI) (f : renameFields) (event : Event)
    (hfail : f.config.FailOnError = true) (hclone : ∀ m, api.Clone m = m) :
    (∀ pre ft post ev err, f.config.Fields = pre ++ ft :: post →
      renameFields.Run api { config := { f.config with Fields := pre } } event = (ev, none) →
      (f.renameField api ft.From ft.To ev.Fields).2 = some err →
      renameFields.Run api f event = (event, some err)) ∧
    ((renameFields.Run api f event).2 = none ∨
      ∃ pre ft post ev err, f.config.Fields = pre ++ ft :: post ∧
        renameFields.Run api { config := { f.config with Fields := pre } } event = (ev, none) ∧
        (f.renameField api ft.From ft.To ev.Fields).2 = some err ∧
        renameFields.Run api f event = (event, some err)) ∧
    (∀ err, (renameFields.Run api f event).2 = some err →
      (renameFields.Run api f event).1.Fields = event.Fields) := by
  have hstart : ∀ pre, renameFields.Run api { config := { f.config with Fields := pre } } event =
      renameFields.Run.loop api f event.Fields pre event := by
    intro pre
    show renameFields.Run.loop api { config := { f.config with Fields := pre } }
      (if f.config.FailOnError = true then api.Clone event.Fields else []) pre event = _
    rw [if_pos hfail, hclone]
    exact renameFields.Run.loop_congr api { config := { f.config with Fields := pre } } f
      rfl rfl _ _ _
  have hrun : renameFields.Run api f event =
      renameFields.Run.loop api f event.Fields f.config.Fields event := by
    simp only [renameFields.Run, hfail, if_true, hclone]
  have hfirst : ∀ pre ft post ev err, f.config.Fields = pre ++ ft :: post →
      renameFields.Run api { config := { f.config with Fields := pre } } event = (ev, none) →
      (f.renameField api ft.From ft.To ev.Fields).2 = some err →
      renameFields.Run api f event = (event, some err) := by
    intro pre ft post ev err hl hpre hft
    rw [hstart] at hpre
    rw [hrun, hl, renameFields.Run.loop_fail api f hfail _ pre post ft event ev err hpre hft]
  have hcases : (renameFields.Run api f event).2 = none ∨
      ∃ pre ft post ev err, f.config.Fields = pre ++ ft :: post ∧
        renameFields.Run api { config := { f.config with Fields := pre } } event = (ev, none) ∧
        (f.renameField api ft.From ft.To ev.Fields).2 = some err ∧
        renameFields.Run api f event = (event, some err) := by
    rcases renameFields.Run.loop_cases api f event.Fields f.config.Fields event
      with h | ⟨pre, ft, post, ev, err, hl, hpre, hft⟩
    · exact Or.inl (by rw [hrun]; exact h)
    · have hpre2 := (hstart pre).trans hpre
      exact Or.inr ⟨pre, ft, post, ev, err, hl, hpre2, hft,
        hfirst pre ft post ev err hl hpre2 hft⟩
  refine ⟨hfirst, hcases, ?_⟩
  intro err herr
  rcases hcases with h | ⟨_, _, _, _, _, _, _, _, hres⟩
  · rw [h] at herr
    cases herr
  · rw [hres]

/-- C20, witness: `a` is renamed to `x`, then renaming `b` to `c` fails because `c`
exists; `Run` returns the error and the event with `a` back in place. -/
theorem renameFields_Run_atomic_witness :
    renameFields.Run exampleMapStr
      ⟨⟨[⟨"a", "x"⟩, ⟨"b", "c"⟩], false, true⟩⟩
      ⟨0, none, [("a", .int 1), ("b", .int 2), ("c", .int 3)]⟩ =
      (⟨0, none, [("a", .int 1), ("b", .int 2), ("c", .int 3)]⟩,
        some "target field c already exists, drop or rename this field first") :=
  (renameFields_Run_atomic exampleMapStr ⟨⟨[⟨"a", "x"⟩, ⟨"b", "c"⟩], false, true⟩⟩
    ⟨0, none, [("a", .int 1), ("b", .int 2), ("c", .int 3)]⟩ rfl (fun _ => rfl)).1
    [⟨"a", "x"⟩] ⟨"b", "c"⟩ [] ⟨0, none, [("b", .int 2), ("c", .int 3), ("x", .int 1)]⟩
    "target field c already exists, drop or rename this field first" rfl rfl rfl

end actions

/-! ## Fields are not overwritten by a rename -/

namespace actions

open beat

/-- C23: when `HasKey` finds the key `to` in the map, `renameField` returns the
`already exists` error and the map as it was given; the result is the same
whatever `GetValue`, `Delete` and `Put` would do, none of them being called. -/
theorem renameField_target_exists (api : MapStrAPI) (f : renameFields)
    (frm target : String) (fields : MapStr) (h : (api.HasKey fields target).1 = true) :
    f.renameField api frm target fields =
      (fields, some ("target field " ++ target ++
        " already exists, drop or rename this field first")) ∧
    ∀ api2 : MapStrAPI, api2.HasKey = api.HasKey →
      f.renameField api2 frm target fields = f.renameField api frm target fields := by
  constructor
  · simp [renameFields.renameField, h]
  · intro api2 h2
    simp [renameFields.renameField, h, h2]

/-- C23, witness: renaming `a` to `c` in a map that has both keys. -/
theorem renameField_target_exists_witness :
    renameFields.renameField exampleMapStr ⟨⟨[], false, true⟩⟩ "a" "c"
      [("a", .int 1), ("c", .int 3)] =
      ([("a", .int 1), ("c", .int 3)],
        some "target field c already exists, drop or rename this field first") :=
  (renameField_target_exists exampleMapStr ⟨⟨[], false, true⟩⟩ "a" "c"
    [("a", .int 1), ("c", .int 3)] rfl).1

end actions

/-! ## Exit handling -/

namespace cmd

/-- C24: `handleError` returns nil if and only if its argument is nil or is
`beat.GracefulExit`, and then writes nothing; every other error is returned as
it is. -/
theorem handleError_nil_iff {E : Type} [DecidableEq E] (GracefulExit : E)
    (render : E → String) (err : Option E) :
    ((handleError GracefulExit render err).ret = none ↔
      (err = none ∨ err = some GracefulExit)) ∧
    ((err = none ∨ err = some GracefulExit) →
      (handleError GracefulExit render err).logged = [] ∧
      (handleError GracefulExit render err).stderr = []) ∧
    (¬ (err = none ∨ err = some GracefulExit) →
      (handleError GracefulExit render err).ret = err) := by
  by_cases h : err = none ∨ err = some GracefulExit
  · simp [handleError, h]
  · have hret : (handleError GracefulExit render err).ret = err := by
      unfold handleError
      rw [if_neg h]
    have hne : err ≠ none := fun h0 => h (Or.inl h0)
    refine ⟨⟨fun h0 => absurd (hret.symm.trans h0) hne, fun h0 => absurd h0 h⟩,
      fun h0 => absurd h0 h, fun _ => hret⟩

end cmd

/-! ## Instance ids -/

namespace autodiscover

open beat

/-- C25, at the failing input: a bus event whose only field is the id `abc` gets
the empty string, and with the provider `docker` it gets `docker:abc`; neither
is the id field `abc`. -/
theorem getID_not_the_id_field :
    List.lookup "id" ([("id", .str "abc")] : Event) = some (.str "abc") ∧
    getID exampleSprint [("id", .str "abc")] = "" ∧
    getID exampleSprint [("provider", .str "docker"), ("id", .str "abc")] = "docker:abc" :=
  ⟨rfl, rfl, rfl⟩

end autodiscover

/-! ## Selectors never fail -/

namespace outil

open beat

/-- The loop of a list selector returns a nil error when its sub-selectors do. -/
theorem listSelector.loop_no_error (evt : Option Event) (subs : List SelFn) (i : Nat)
    (h : ∀ p ∈ subs, (p evt).2 = none) :
    (listSelector.loop evt subs i).1.2 = none := by
  induction subs generalizing i with
  | nil => rfl
  | cons p ps ih =>
    have hp : (p evt).2 = none := h p (List.mem_cons_self _ _)
    have hps : ∀ q ∈ ps, (q evt).2 = none := fun q hq => h q (List.mem_cons_of_mem _ hq)
    unfold listSelector.loop
    simp only [hp, Option.isSome_none, Bool.false_eq_true, if_false]
    split
    · rfl
    · exact ih (i + 1) hps

mutual
/-- No expression tree returns an error. -/
theorem SelectorExpr.sel_no_error : ∀ (e : SelectorExpr) (evt : Option Event),
    (e.sel evt).2 = none
  | .empty, _ => rfl
  | .list es, evt => by
    simp only [SelectorExpr.sel, listSelector.sel]
    exact listSelector.loop_no_error evt _ 0 (SelectorExpr.selAll_no_error es evt)
  | .cond s c, evt => by
    have hs := SelectorExpr.sel_no_error s evt
    simp only [SelectorExpr.sel, condSelector.sel, condSelector.run]
    split
    · rfl
    · exact hs
  | .const _, _ => rfl
  | .fmt f otherwise, evt => by
    simp only [SelectorExpr.sel, fmtSelector.sel]
    split
    · rfl
    · split <;> rfl
  | .map frm otherwise table, evt => by
    have hs := SelectorExpr.sel_no_error frm evt
    simp only [SelectorExpr.sel, mapSelector.sel, hs]
    split
    · rfl
    · split <;> rfl
/-- No expression of a slice returns an error. -/
theorem SelectorExpr.selAll_no_error : ∀ (es : List SelectorExpr) (evt : Option Event),
    ∀ p ∈ SelectorExpr.selAll es, (p evt).2 = none
  | [], _ => by simp [SelectorExpr.selAll]
  | e :: es, evt => by
    intro p hp
    simp only [SelectorExpr.selAll, List.mem_cons] at hp
    rcases hp with rfl | hp
    · exact SelectorExpr.sel_no_error e evt
    · exact SelectorExpr.selAll_no_error es evt p hp
end

/-- C26: for every expression tree made of the six node types and every event,
`sel`, and so `Select`, returns a nil error; in particular the sub-expressions
of a list node and the `from` of a mapping node return a nil error, so the
branches of these nodes that hand on an error are never taken. -/
theorem Select_never_errors (e : SelectorExpr) (evt : Option Event) :
    (e.sel evt).2 = none ∧
    ((⟨e⟩ : Selector).Select evt).2 = none ∧
    (∀ es, e = .list es → ∀ p ∈ SelectorExpr.selAll es, (p evt).2 = none) ∧
    (∀ frm otherwise table, e = .map frm otherwise table → (frm.sel evt).2 = none) :=
  ⟨SelectorExpr.sel_no_error e evt, SelectorExpr.sel_no_error e evt,
    fun es _ => SelectorExpr.selAll_no_error es evt,
    fun frm _ _ _ => SelectorExpr.sel_no_error frm evt⟩

end outil

/-! ## The order of the expressions of a selector -/

namespace outil

open beat

section order

variable {Config CondConfig : Type}

/-- When every entry builds, the loop over the entries appends their expressions
in order, leaving out the empty expression. -/
theorem BuildSelectorFromConfig.entries_ok (api : ConfigAPI Config CondConfig) (key : String)
    (table : List Config) (actions : List SelectorExpr)
    (h : List.Forall₂ (fun entry action => buildSingle api entry key = .ok action)
      table actions) (acc : List SelectorExpr) :
    BuildSelectorFromConfig.entries api key table acc =
      .ok (acc ++ actions.filter (fun a => !a.isNilSelector)) := by
  induction h generalizing acc with
  | nil => simp [BuildSelectorFromConfig.entries]
  | @cons entry action rest restActions hb _ ih =>
    simp only [BuildSelectorFromConfig.entries, hb]
    rw [ih]
    cases hn : action.isNilSelector <;> simp [List.filter_cons, hn]

/-- A list selector over one sub-selector returns what the sub-selector returns. -/
theorem listSelector.sel_singleton (f : SelFn) (evt : Option Event) :
    listSelector.sel [f] evt = f evt := by
  rcases hr : f evt with ⟨n, err⟩
  cases err with
  | some x => simp [listSelector.sel, listSelector.loop, hr]
  | none =>
    by_cases hn : n = ""
    · simp [listSelector.sel, listSelector.loop, hr, hn]
    · simp [listSelector.sel, listSelector.loop, hr, hn]

/-- The selector made of a slice of expressions evaluates as the list selector
over them, whatever their number. -/
theorem MakeSelector_Select (es : List SelectorExpr) (evt : Option Event) :
    (MakeSelector es).Select evt = listSelector.sel (SelectorExpr.selAll es) evt := by
  match es with
  | [] => rfl
  | [e] =>
    rw [SelectorExpr.selAll, SelectorExpr.selAll, listSelector.sel_singleton]
    rfl
  | _ :: _ :: _ => rfl

/-- The `sel` methods of two slices put end to end. -/
theorem SelectorExpr.selAll_append (xs ys : List SelectorExpr) :
    SelectorExpr.selAll (xs ++ ys) = SelectorExpr.selAll xs ++ SelectorExpr.selAll ys := by
  induction xs with
  | nil => rfl
  | cons x xs ih => simp [SelectorExpr.selAll, ih]

/-- C28: the config has the multi-entry list, whose entries build to `actions`,
and, with `EnableSingleOnly`, the single key.  The selector built is made of
the expressions of the entries in their order, without those that are the
empty expression, followed by the expression of the single key: a const node
for a non-empty constant, nothing for an empty constant, a format node
otherwise.  On every event its result is that of the first entry that does not
yield the empty string with a nil error, and it is the value of the single key
when every entry yields the empty string. -/
theorem BuildSelectorFromConfig_order (api : ConfigAPI Config CondConfig)
    (cfg sub : Config) (settings : Settings) (table : List Config)
    (actions : List SelectorExpr) (str : String) (fmtstr : EventFormatString) (c : String)
    (hmulti : api.HasField cfg settings.MultiKey = true)
    (hchild : api.Child cfg settings.MultiKey = .ok sub)
    (htable : api.UnpackTable sub = .ok table)
    (hbuild : List.Forall₂
      (fun entry action => buildSingle api entry settings.Key = .ok action) table actions)
    (hsingle : settings.EnableSingleOnly = true)
    (hkey : api.HasField cfg settings.Key = true)
    (hstr : api.StringOf cfg settings.Key = .ok str)
    (hcomp : api.CompileEvent str = .ok fmtstr)
    (hrun : fmtstr.IsConst = true → fmtstr.Run none = (c, none)) :
    ∃ single : List SelectorExpr,
      single = (if fmtstr.IsConst = true then
          (if c ≠ "" then [ConstSelectorExpr c] else [])
        else [FmtSelectorExpr fmtstr ""]) ∧
      BuildSelectorFromConfig api cfg settings =
        .ok (MakeSelector (actions.filter (fun a => !a.isNilSelector) ++ single)) ∧
      ∀ evt,
        (∀ pre a post, actions = pre ++ a :: post →
          (∀ p ∈ pre, p.sel evt = ("", none)) → a.sel evt ≠ ("", none) →
          (MakeSelector (actions.filter (fun a => !a.isNilSelector) ++ single)).Select evt =
            a.sel evt) ∧
        ((∀ a ∈ actions, a.sel evt = ("", none)) →
          (MakeSelector (actions.filter (fun a => !a.isNilSelector) ++ single)).Select evt =
            (if fmtstr.IsConst = true then (c, none) else fmtSelector.sel fmtstr "" evt)) := by
  refine ⟨_, rfl, ?_, ?_⟩
  · have hent := BuildSelectorFromConfig.entries_ok api settings.Key table actions hbuild []
    cases hconst : fmtstr.IsConst
    · simp [BuildSelectorFromConfig, BuildSelectorFromConfig.multi, hmulti, hchild, htable,
        hent, BuildSelectorFromConfig.single, hsingle, hkey, hstr, hcomp, hconst,
        BuildSelectorFromConfig.found]
    · have hr := hrun hconst
      by_cases hc : c = "" <;>
        simp [BuildSelectorFromConfig, BuildSelectorFromConfig.multi, hmulti, hchild, htable,
          hent, BuildSelectorFromConfig.single, hsingle, hkey, hstr, hcomp, hconst, hr, hc,
          BuildSelectorFromConfig.found]
  · intro evt
    constructor
    · intro pre a post hact hpre ha
      have hanil : a.isNilSelector = false := by
        cases a with
        | empty => exact absurd rfl ha
        | _ => rfl
      have hfilter : actions.filter (fun a => !a.isNilSelector) =
          pre.filter (fun a => !a.isNilSelector) ++
            a :: post.filter (fun a => !a.isNilSelector) := by
        rw [hact, List.filter_append, List.filter_cons]
        simp [hanil]
      have hskip : ∀ p ∈ SelectorExpr.selAll (pre.filter (fun a => !a.isNilSelector)),
          p evt = ("", none) :=
        SelectorExpr.selAll_empty _ evt (fun e he => hpre e (List.mem_filter.mp he).1)
      rw [MakeSelector_Select, hfilter, List.append_assoc, SelectorExpr.selAll_append,
        List.cons_append, SelectorExpr.selAll]
      unfold listSelector.sel
      rw [listSelector.loop_skip evt _ _ 0 hskip, listSelector.loop_stop evt _ _ _ ha]
    · intro hall
      have hskip : ∀ p ∈ SelectorExpr.selAll (actions.filter (fun a => !a.isNilSelector)),
          p evt = ("", none) :=
        SelectorExpr.selAll_empty _ evt (fun e he => hall e (List.mem_filter.mp he).1)
      rw [MakeSelector_Select, SelectorExpr.selAll_append]
      unfold listSelector.sel
      rw [listSelector.loop_skip evt _ _ 0 hskip]
      have hidx : ∀ (subs : List SelFn) (i : Nat),
          (listSelector.loop evt subs i).1 = (listSelector.loop evt subs 0).1 := by
        intro subs
        induction subs with
        | nil => intro i; rfl
        | cons q qs ih =>
          intro i
          unfold listSelector.loop
          simp only
          split
          · rfl
          · split
            · rfl
            · exact (ih (i + 1)).trans (ih (0 + 1)).symm
      show (listSelector.loop evt _ _).1 = _
      rw [hidx]
      cases hconst : fmtstr.IsConst
      · have h1 := listSelector.sel_singleton
          (fun e => SelectorExpr.sel (FmtSelectorExpr fmtstr "") e) evt
        simp only [listSelector.sel] at h1
        simp only [Bool.false_eq_true, if_false, SelectorExpr.selAll, h1]
        rfl
      · by_cases hc : c = ""
        · simp [hc, SelectorExpr.selAll, listSelector.loop]
        · have h1 := listSelector.sel_singleton
            (fun e => SelectorExpr.sel (ConstSelectorExpr c) e) evt
          simp only [listSelector.sel] at h1
          simp only [if_true, hc, ne_eq, not_false_eq_true, SelectorExpr.selAll, h1]
          rfl

/-- C28, witness: a list of two entries, the first folding to the empty
expression and the second reading the field `user`, then the single key `logs`.
An event with the user `bob` is sent to `bob`, an event without user to `logs`. -/
theorem BuildSelectorFromConfig_order_witness :
    ∃ sel, BuildSelectorFromConfig exampleAPI
        (.root (some "logs")
          (some [⟨some "", none, none, none⟩, ⟨some "%{[user]}", none, none, none⟩]))
        ⟨"index", "indices", true, false⟩ = .ok sel ∧
      sel.Select (some bobEvent) = ("bob", none) ∧
      sel.Select (some (codeEvent "1")) = ("logs", none) := by
  obtain ⟨single, _, hb, hsem⟩ := BuildSelectorFromConfig_order exampleAPI
    (.root (some "logs")
      (some [⟨some "", none, none, none⟩, ⟨some "%{[user]}", none, none, none⟩]))
    (.entries [⟨some "", none, none, none⟩, ⟨some "%{[user]}", none, none, none⟩])
    ⟨"index", "indices", true, false⟩
    [.entry ⟨some "", none, none, none⟩, .entry ⟨some "%{[user]}", none, none, none⟩]
    [nilSelector, FmtSelectorExpr (exampleCompile "%{[user]}") ""]
    "logs" (exampleCompile "logs") "logs" rfl rfl rfl
    (List.Forall₂.cons rfl (List.Forall₂.cons rfl List.Forall₂.nil)) rfl rfl rfl rfl
    (fun _ => rfl)
  refine ⟨_, hb, ?_, ?_⟩
  · exact ((hsem (some bobEvent)).1 [nilSelector]
      (FmtSelectorExpr (exampleCompile "%{[user]}") "") [] rfl (by decide) (by decide)).trans
      (by decide)
  · exact ((hsem (some (codeEvent "1"))).2 (by decide)).trans (by decide)

end order

end outil

/-! ## Writing JSON keys -/

namespace jsontransform

open beat

/-- A key reads the value just assigned to it. -/
theorem mapGet_mapSet_same (m : List (String × Value)) (k : String) (v : Value) :
    mapGet (mapSet m k v) k = some v := by
  simp [mapGet, mapSet, List.lookup_cons]

/-- An assignment to one key leaves the other keys as they were. -/
theorem mapGet_mapSet_other (m : List (String × Value)) (k k2 : String) (v : Value)
    (h : k2 ≠ k) : mapGet (mapSet m k v) k2 = mapGet m k2 := by
  have hne : (k2 == k) = false := by simpa using h
  simp only [mapGet, mapSet, List.lookup_cons, hne]
  induction m with
  | nil => rfl
  | cons e es ih =>
    rcases e with ⟨a, b⟩
    by_cases hak : a = k
    · subst hak
      have hne2 : (k2 == a) = false := hne
      simp [List.filter_cons, List.lookup_cons, hne2, ih]
    · by_cases h2 : k2 = a
      · subst h2
        simp [List.filter_cons, List.lookup_cons, hak]
      · have hne3 : (k2 == a) = false := by simpa using h2
        simp [List.filter_cons, List.lookup_cons, hak, hne3, ih]

/-- The first loop, from any event: fields present stay, absent keys other than
`@timestamp` and `@metadata` take the value the list of entries has for them. -/
theorem WriteJSONKeys.keep_fold (keys : List (String × Value)) (event : Event) :
    (keys.foldl (fun ev e => WriteJSONKeys.keep ev e.1 e.2) event).Timestamp =
      event.Timestamp ∧
    (keys.foldl (fun ev e => WriteJSONKeys.keep ev e.1 e.2) event).Meta = event.Meta ∧
    ∀ k, mapGet (keys.foldl (fun ev e => WriteJSONKeys.keep ev e.1 e.2) event).Fields k =
      match mapGet event.Fields k with
      | some v => some v
      | none => if k = "@timestamp" ∨ k = "@metadata" then none else keys.lookup k := by
  induction keys generalizing event with
  | nil =>
    refine ⟨rfl, rfl, ?_⟩
    intro k
    cases hget : mapGet event.Fields k <;> simp [hget]
  | cons e rest ih =>
    rcases e with ⟨k0, v0⟩
    obtain ⟨h1, h2, h3⟩ := ih (WriteJSONKeys.keep event k0 v0)
    simp only [List.foldl_cons]
    by_cases hadd : ((mapGet event.Fields k0).isNone && k0 != "@timestamp" &&
        k0 != "@metadata") = true
    · have hkeep : WriteJSONKeys.keep event k0 v0 =
          { event with Fields := mapSet event.Fields k0 v0 } := by
        simp only [WriteJSONKeys.keep, hadd, if_true]
      simp only [Bool.and_eq_true, Option.isNone_iff_eq_none, bne_iff_ne, ne_eq] at hadd
      obtain ⟨⟨hnone, hts⟩, hmd⟩ := hadd
      refine ⟨by rw [h1, hkeep], by rw [h2, hkeep], ?_⟩
      intro k
      rw [h3 k, hkeep]
      by_cases hk : k = k0
      · subst hk
        simp [mapGet_mapSet_same, hnone, hts, hmd, List.lookup_cons]
      · have hne : (k == k0) = false := by simpa using hk
        simp only [mapGet_mapSet_other _ _ _ _ hk, List.lookup_cons, hne]
    · have hkeep : WriteJSONKeys.keep event k0 v0 = event := by
        simp only [WriteJSONKeys.keep, hadd, Bool.false_eq_true, if_false]
      refine ⟨by rw [h1, hkeep], by rw [h2, hkeep], ?_⟩
      intro k
      rw [h3 k, hkeep]
      by_cases hk : k = k0
      · subst hk
        cases hget : mapGet event.Fields k with
        | some v => rfl
        | none =>
          have hspecial : k = "@timestamp" ∨ k = "@metadata" := by
            by_contra hcon
            apply hadd
            simp only [not_or] at hcon
            simp [hget, hcon.1, hcon.2]
          simp [hspecial]
      · have hne : (k == k0) = false := by simpa using hk
        simp only [List.lookup_cons, hne]

/-- C21: with `overwriteKeys` false the call returns without panic, and in the
event it leaves every field that was present keeps its value; a key that was
absent has the value `keys` has for it, unless it is `@timestamp` or
`@metadata`, and stays absent if `keys` has none or it is one of these two;
the timestamp and the metadata are unchanged. -/
theorem WriteJSONKeys_keep (deps : Deps) (event : Event) (keys : List (String × Value)) :
    ∃ written, WriteJSONKeys deps event keys false = .ok written ∧
      (∀ k v, mapGet event.Fields k = some v → mapGet written.Fields k = some v) ∧
      (∀ k, mapGet event.Fields k = none → k ≠ "@timestamp" → k ≠ "@metadata" →
        mapGet written.Fields k = keys.lookup k) ∧
      (∀ k, mapGet event.Fields k = none → (k = "@timestamp" ∨ k = "@metadata") →
        mapGet written.Fields k = none) ∧
      written.Timestamp = event.Timestamp ∧
      written.Meta = event.Meta := by
  obtain ⟨h1, h2, h3⟩ := WriteJSONKeys.keep_fold keys event
  refine ⟨keys.foldl (fun ev e => WriteJSONKeys.keep ev e.1 e.2) event,
    by simp [WriteJSONKeys], ?_, ?_, ?_, h1, h2⟩
  · intro k v hk
    rw [h3 k, hk]
  · intro k hk hts hmd
    rw [h3 k, hk]
    simp [hts, hmd]
  · intro k hk hsp
    rw [h3 k, hk]
    simp [hsp]

/-- C22: with `overwriteKeys` true and `type` the only entry of `keys` the call
returns without panic.  A value that is not a string, or is the empty string,
or starts with an underscore leaves the field `type` as it was and sets the
field `error` to a map with a `type not overwritten` message and the type
`json`; a non-empty string that does not start with an underscore becomes the
field `type`, and the field `error`, like every other field, is left as it
was. -/
theorem WriteJSONKeys_type (deps : Deps) (event : Event) (v : Value) :
    ∃ written, WriteJSONKeys deps event [("type", v)] true = .ok written ∧
      ((∀ s, v ≠ .str s) →
        mapGet written.Fields "type" = mapGet event.Fields "type" ∧
        mapGet written.Fields "error" =
          some (.obj [("message", .str "type not overwritten (not string)"),
            ("type", .str "json")])) ∧
      (∀ s, v = .str s → (s = "" ∨ s.data.head? = some '_') →
        mapGet written.Fields "type" = mapGet event.Fields "type" ∧
        mapGet written.Fields "error" =
          some (.obj [("message",
              .str ("type not overwritten (invalid value [" ++ s ++ "])")),
            ("type", .str "json")])) ∧
      (∀ s, v = .str s → s ≠ "" → s.data.head? ≠ some '_' →
        mapGet written.Fields "type" = some (.str s) ∧
        ∀ k, k ≠ "type" → mapGet written.Fields k = mapGet event.Fields k) ∧
      written.Timestamp = event.Timestamp ∧ written.Meta = event.Meta := by
  have hlen : ∀ s : String, s.length = 0 ↔ s = "" := by
    intro s
    rcases s with ⟨l⟩
    cases l <;> simp [String.length, String.ext_iff]
  have hte : ("type" : String) ≠ "error" := by decide
  have hw : WriteJSONKeys deps event [("type", v)] true =
      WriteJSONKeys.overwrite deps event "type" v := by
    simp only [WriteJSONKeys, Bool.not_true, Bool.false_eq_true, if_false,
      WriteJSONKeys.overwriteAll]
    cases WriteJSONKeys.overwrite deps event "type" v <;> rfl
  rw [hw]
  by_cases hstr : ∃ s, v = .str s
  · obtain ⟨s, hv⟩ := hstr
    subst hv
    by_cases hbad : (decide (s.length = 0) || decide (s.data.head? = some '_')) = true
    · refine ⟨WriteJSONKeys.setError event
          ("type not overwritten (invalid value [" ++ s ++ "])"), ?_, ?_, ?_, ?_, rfl, rfl⟩
      · simp only [WriteJSONKeys.overwrite]
        simp [hbad]
      · intro hns
        exact absurd rfl (hns s)
      · intro s2 hs2 _
        cases hs2
        exact ⟨mapGet_mapSet_other _ _ _ _ hte, mapGet_mapSet_same _ _ _⟩
      · intro s2 hs2 hne hund
        cases hs2
        exfalso
        simp only [Bool.or_eq_true, decide_eq_true_eq] at hbad
        rcases hbad with h | h
        · exact hne ((hlen s).mp h)
        · exact hund h
    · refine ⟨{ event with Fields := mapSet event.Fields "type" (.str s) },
          ?_, ?_, ?_, ?_, rfl, rfl⟩
      · simp only [WriteJSONKeys.overwrite]
        simp [hbad]
      · intro hns
        exact absurd rfl (hns s)
      · intro s2 hs2 hb2
        cases hs2
        exfalso
        apply hbad
        rcases hb2 with h | h
        · simp [(hlen s).mpr h]
        · simp [h]
      · intro s2 hs2 _ _
        cases hs2
        exact ⟨mapGet_mapSet_same _ _ _, fun k hk => mapGet_mapSet_other _ _ _ _ hk⟩
  · have hns : ∀ s, v ≠ .str s := fun s hs => hstr ⟨s, hs⟩
    refine ⟨WriteJSONKeys.setError event "type not overwritten (not string)",
      ?_, ?_, ?_, ?_, rfl, rfl⟩
    · cases v with
      | str s => exact absurd rfl (hns s)
      | _ => simp [WriteJSONKeys.overwrite]
    · intro _
      exact ⟨mapGet_mapSet_other _ _ _ _ hte, mapGet_mapSet_same _ _ _⟩
    · intro s hs _
      exact absurd hs (hns s)
    · intro s hs _ _
      exact absurd hs (hns s)

/-- Reading a key after an assignment. -/
theorem mapGet_mapSet (m : List (String × Value)) (k q : String) (v : Value) :
    mapGet (mapSet m k v) q = if q = k then some v else mapGet m q := by
  by_cases h : q = k
  · subst h
    simp [mapGet_mapSet_same]
  · simp [h, mapGet_mapSet_other _ _ _ _ h]

/-- The body of the second loop makes the assignment `write` gives for the entry. -/
theorem WriteJSONKeys.overwrite_eq (deps : Deps) (event : Event) (k : String) (v : Value) :
    WriteJSONKeys.overwrite deps event k v = (WriteJSONKeys.write deps k v).apply event := by
  unfold WriteJSONKeys.overwrite WriteJSONKeys.write
  split
  · cases v with
    | str s =>
      cases hp : deps.parseRFC3339 s <;>
        simp [hp, Write.apply, WriteJSONKeys.setError]
    | _ => rfl
  · split
    · cases v <;> rfl
    · split
      · cases v with
        | str s =>
          simp only
          split <;> rfl
        | _ => rfl
      · rfl

/-- The assignment of an entry is to the timestamp only for the key `@timestamp`,
to the metadata only for the key `@metadata`, and to a field otherwise: to the
field `error` exactly when `writesError` says so, and else to the field of the
key. -/
theorem WriteJSONKeys.write_cases (deps : Deps) (k : String) (v : Value) :
    (∃ ts, WriteJSONKeys.write deps k v = .timestamp ts ∧ k = "@timestamp" ∧
      WriteJSONKeys.writesError deps k v = false) ∨
    (∃ f, WriteJSONKeys.write deps k v = .metadata f ∧ k = "@metadata" ∧
      WriteJSONKeys.writesError deps k v = false) ∨
    (∃ val, WriteJSONKeys.write deps k v = .field "error" val ∧
      WriteJSONKeys.writesError deps k v = true) ∨
    (∃ val, WriteJSONKeys.write deps k v = .field k val ∧
      WriteJSONKeys.writesError deps k v = false ∧ k ≠ "error" ∧ k ≠ "@timestamp" ∧
      k ≠ "@metadata") := by
  by_cases h1 : k = "@timestamp"
  · subst h1
    cases v with
    | str s =>
      cases hp : deps.parseRFC3339 s with
      | none =>
        refine Or.inr (Or.inr (Or.inl
          ⟨createJSONError ("@timestamp not overwritten (parse error on " ++ s ++ ")"), ?_, ?_⟩))
        · simp only [WriteJSONKeys.write, ↓reduceIte, hp]
        · simp [WriteJSONKeys.writesError, hp]
      | some ts =>
        refine Or.inl ⟨ts, ?_, rfl, ?_⟩
        · simp only [WriteJSONKeys.write, ↓reduceIte, hp]
        · simp [WriteJSONKeys.writesError, hp]
    | _ => exact Or.inr (Or.inr (Or.inl ⟨_, rfl, rfl⟩))
  · by_cases h2 : k = "@metadata"
    · subst h2
      cases v with
      | strMap m => exact Or.inr (Or.inl ⟨_, rfl, rfl, rfl⟩)
      | ifaceMap m => exact Or.inr (Or.inl ⟨_, rfl, rfl, rfl⟩)
      | _ => exact Or.inr (Or.inr (Or.inl ⟨_, rfl, rfl⟩))
    · by_cases h3 : k = "type"
      · subst h3
        cases v with
        | str s =>
          by_cases hbad : (decide (s.length = 0) || decide (s.data.head? = some '_')) = true
          · refine Or.inr (Or.inr (Or.inl
              ⟨createJSONError ("type not overwritten (invalid value [" ++ s ++ "])"), ?_, ?_⟩))
            · simp only [WriteJSONKeys.write, String.reduceEq, ↓reduceIte, hbad]
            · simpa [WriteJSONKeys.writesError] using hbad
          · refine Or.inr (Or.inr (Or.inr ⟨.str s, ?_, ?_, by decide, by decide, by decide⟩))
            · simp only [WriteJSONKeys.write, String.reduceEq, ↓reduceIte, hbad,
                Bool.false_eq_true]
            · simpa [WriteJSONKeys.writesError] using hbad
        | _ => exact Or.inr (Or.inr (Or.inl ⟨_, rfl, rfl⟩))
      · by_cases h4 : k = "error"
        · refine Or.inr (Or.inr (Or.inl ⟨v, ?_, ?_⟩))
          · simp only [WriteJSONKeys.write, h1, h2, h3, ↓reduceIte]
            rw [h4]
          · simp [WriteJSONKeys.writesError, h1, h2, h3, h4]
        · refine Or.inr (Or.inr (Or.inr ⟨v, ?_, ?_, h4, h1, h2⟩))
          · simp only [WriteJSONKeys.write, h1, h2, h3, ↓reduceIte]
          · simp [WriteJSONKeys.writesError, h1, h2, h3, h4]

/-- An assignment to a field does not panic. -/
theorem Write.apply_field (k : String) (v : Value) (e a : Event) :
    (Write.field k v).apply e = .ok a ↔ a = { e with Fields := mapSet e.Fields k v } := by
  simp only [Write.apply, Except.ok.injEq]
  exact eq_comm

/-- An assignment to the timestamp does not panic. -/
theorem Write.apply_timestamp (ts : Int) (e a : Event) :
    (Write.timestamp ts).apply e = .ok a ↔ a = { e with Timestamp := ts } := by
  simp only [Write.apply, Except.ok.injEq]
  exact eq_comm

/-- An assignment to the metadata returns when its function gives a value. -/
theorem Write.apply_metadata
    (f : Option (List (String × Value)) → Option (Option (List (String × Value))))
    (e a : Event) :
    (Write.metadata f).apply e = .ok a ↔
      ∃ u, f e.Meta = some u ∧ a = { e with Meta := u } := by
  simp only [Write.apply]
  cases hf : f e.Meta with
  | none => simp
  | some u =>
    simp only [Except.ok.injEq, Option.some.injEq, exists_eq_left']
    exact eq_comm

/-- An assignment keeps two events in agreement, and returns on the second if it
returns on the first. -/
theorem Write.apply_agree (b : Bool) (w : Write) (e1 e2 a : Event) (h : agree b e1 e2)
    (ha : w.apply e1 = .ok a) : ∃ c, w.apply e2 = .ok c ∧ agree b a c := by
  obtain ⟨ht, hm, hf⟩ := h
  cases w with
  | field k v =>
    rw [Write.apply_field] at ha
    subst ha
    refine ⟨_, rfl, ht, hm, ?_⟩
    intro q hq
    simp only [mapGet_mapSet]
    split
    · rfl
    · exact hf q hq
  | timestamp ts =>
    rw [Write.apply_timestamp] at ha
    subst ha
    exact ⟨_, rfl, rfl, hm, hf⟩
  | metadata f =>
    rw [Write.apply_metadata] at ha
    obtain ⟨u, hu, rfl⟩ := ha
    refine ⟨{ e2 with Meta := u }, ?_, ht, rfl, hf⟩
    rw [Write.apply_metadata]
    exact ⟨u, by rw [← hm]; exact hu, rfl⟩

/-- Every event agrees with itself. -/
theorem agree_refl (b : Bool) (e : Event) : agree b e e :=
  ⟨rfl, rfl, fun _ _ => rfl⟩

/-- Agreement passes along a chain of events. -/
theorem agree_trans (b : Bool) (e1 e2 e3 : Event) (h12 : agree b e1 e2)
    (h23 : agree b e2 e3) : agree b e1 e3 :=
  ⟨h12.1.trans h23.1, h12.2.1.trans h23.2.1, fun k hk => (h12.2.2 k hk).trans (h23.2.2 k hk)⟩

/-- Visiting two entries with different keys in either order: if the first order
returns, so does the second, and the events agree, the field `error` included
unless both entries write it. -/
theorem WriteJSONKeys.overwrite_swap (deps : Deps) (b : Bool) (event : Event)
    (k1 k2 : String) (v1 v2 : Value) (hk : k1 ≠ k2)
    (herr : b = true → ¬ (WriteJSONKeys.writesError deps k1 v1 = true ∧
      WriteJSONKeys.writesError deps k2 v2 = true))
    (a a2 : Event) (h1 : WriteJSONKeys.overwrite deps event k1 v1 = .ok a)
    (h2 : WriteJSONKeys.overwrite deps a k2 v2 = .ok a2) :
    ∃ c c2, WriteJSONKeys.overwrite deps event k2 v2 = .ok c ∧
      WriteJSONKeys.overwrite deps c k1 v1 = .ok c2 ∧ agree b a2 c2 := by
  simp only [WriteJSONKeys.overwrite_eq] at h1 h2 ⊢
  rcases WriteJSONKeys.write_cases deps k1 v1 with
    ⟨t1, hw1, hk1, he1⟩ | ⟨f1, hw1, hk1, he1⟩ | ⟨val1, hw1, he1⟩ |
    ⟨val1, hw1, he1, hne1, hnt1, hnm1⟩ <;>
  rcases WriteJSONKeys.write_cases deps k2 v2 with
    ⟨t2, hw2, hk2, he2⟩ | ⟨f2, hw2, hk2, he2⟩ | ⟨val2, hw2, he2⟩ |
    ⟨val2, hw2, he2, hne2, hnt2, hnm2⟩ <;>
  rw [hw1] at h1 ⊢ <;> rw [hw2] at h2 ⊢ <;>
  first
    | exact absurd (hk1.trans hk2.symm) hk
    | (simp only [Write.apply_field, Write.apply_timestamp] at h1 h2 ⊢
       subst h1
       subst h2
       refine ⟨_, _, rfl, rfl, rfl, rfl, fun q hq => ?_⟩
       first
         | rfl
         | (simp only [mapGet_mapSet]
            split_ifs <;> simp_all))
    | (simp only [Write.apply_field, Write.apply_timestamp, Write.apply_metadata] at h1 h2 ⊢
       obtain ⟨u, hu, rfl⟩ := h1
       subst h2
       exact ⟨_, _, rfl, ⟨u, hu, rfl⟩, rfl, rfl, fun _ _ => rfl⟩)
    | (simp only [Write.apply_field, Write.apply_timestamp, Write.apply_metadata] at h1 h2 ⊢
       subst h1
       obtain ⟨u, hu, rfl⟩ := h2
       exact ⟨_, _, ⟨u, hu, rfl⟩, rfl, rfl, rfl, fun _ _ => rfl⟩)

/-- The loop returns on a list that starts with an entry when the body returns on
that entry and the loop returns on the rest. -/
theorem WriteJSONKeys.overwriteAll_cons (deps : Deps) (x : String × Value)
    (rest : List (String × Value)) (e r : Event) :
    WriteJSONKeys.overwriteAll deps (x :: rest) e = .ok r ↔
      ∃ n, WriteJSONKeys.overwrite deps e x.1 x.2 = .ok n ∧
        WriteJSONKeys.overwriteAll deps rest n = .ok r := by
  simp only [WriteJSONKeys.overwriteAll]
  cases WriteJSONKeys.overwrite deps e x.1 x.2 with
  | error left => simp
  | ok n => simp

/-- Visiting the same entries keeps two events in agreement, and returns on the
second if it returns on the first. -/
theorem WriteJSONKeys.overwriteAll_agree (deps : Deps) (b : Bool)
    (l : List (String × Value)) (e1 e2 r1 : Event) (h : agree b e1 e2)
    (hr : WriteJSONKeys.overwriteAll deps l e1 = .ok r1) :
    ∃ r2, WriteJSONKeys.overwriteAll deps l e2 = .ok r2 ∧ agree b r1 r2 := by
  induction l generalizing e1 e2 with
  | nil =>
    simp only [WriteJSONKeys.overwriteAll, Except.ok.injEq] at hr
    subst hr
    exact ⟨e2, rfl, h⟩
  | cons x rest ih =>
    rw [WriteJSONKeys.overwriteAll_cons] at hr
    obtain ⟨n, hn, hrest⟩ := hr
    rw [WriteJSONKeys.overwrite_eq] at hn
    obtain ⟨c, hc, hac⟩ := Write.apply_agree b _ e1 e2 n h hn
    obtain ⟨r2, hr2, hagree⟩ := ih n c hac hrest
    refine ⟨r2, ?_, hagree⟩
    rw [WriteJSONKeys.overwriteAll_cons]
    exact ⟨c, by rw [WriteJSONKeys.overwrite_eq]; exact hc, hr2⟩

/-- Visiting the entries of a map in two orders: if the first returns, so does
the second, and the events agree, the field `error` included when at most one
entry writes it. -/
theorem WriteJSONKeys.perm_agree (deps : Deps) (b : Bool) (l1 l2 : List (String × Value))
    (hperm : l1.Perm l2) :
    (l1.map Prod.fst).Nodup →
    (b = true → l1.countP (fun e => WriteJSONKeys.writesError deps e.1 e.2) ≤ 1) →
    ∀ e1 e2 r1, agree b e1 e2 → WriteJSONKeys.overwriteAll deps l1 e1 = .ok r1 →
      ∃ r2, WriteJSONKeys.overwriteAll deps l2 e2 = .ok r2 ∧ agree b r1 r2 := by
  induction hperm with
  | nil =>
    intro _ _ e1 e2 r1 h hr
    exact WriteJSONKeys.overwriteAll_agree deps b [] e1 e2 r1 h hr
  | @cons x l1 l2 _ ih =>
    intro hnd hcount e1 e2 r1 h hr
    rw [WriteJSONKeys.overwriteAll_cons] at hr
    obtain ⟨n, hn, hrest⟩ := hr
    rw [WriteJSONKeys.overwrite_eq] at hn
    obtain ⟨c, hc, hac⟩ := Write.apply_agree b _ e1 e2 n h hn
    have hnd2 : (l1.map Prod.fst).Nodup := by
      simp only [List.map_cons, List.nodup_cons] at hnd
      exact hnd.2
    have hcount2 : b = true →
        l1.countP (fun e => WriteJSONKeys.writesError deps e.1 e.2) ≤ 1 := by
      intro hb
      have := hcount hb
      rw [List.countP_cons] at this
      omega
    obtain ⟨r2, hr2, hagree⟩ := ih hnd2 hcount2 n c r1 hac hrest
    refine ⟨r2, ?_, hagree⟩
    rw [WriteJSONKeys.overwriteAll_cons]
    exact ⟨c, by rw [WriteJSONKeys.overwrite_eq]; exact hc, hr2⟩
  | swap x y l =>
    intro hnd hcount e1 e2 r1 h hr
    have hne : y.1 ≠ x.1 := by
      simp only [List.map_cons, List.nodup_cons, List.mem_cons, not_or] at hnd
      exact hnd.1.1
    have hnot : b = true → ¬ (WriteJSONKeys.writesError deps y.1 y.2 = true ∧
        WriteJSONKeys.writesError deps x.1 x.2 = true) := by
      intro hb hboth
      have := hcount hb
      rw [List.countP_cons, List.countP_cons] at this
      simp only [hboth.1, hboth.2, if_true] at this
      omega
    rw [WriteJSONKeys.overwriteAll_cons] at hr
    obtain ⟨n1, hn1, hr⟩ := hr
    rw [WriteJSONKeys.overwriteAll_cons] at hr
    obtain ⟨n2, hn2, hrest⟩ := hr
    obtain ⟨c, c2, hc, hc2, hswap⟩ :=
      WriteJSONKeys.overwrite_swap deps b e1 y.1 x.1 y.2 x.2 hne hnot n1 n2 hn1 hn2
    rw [WriteJSONKeys.overwrite_eq] at hc hc2
    obtain ⟨d, hd, hcd⟩ := Write.apply_agree b _ e1 e2 c h hc
    obtain ⟨d2, hd2, hcd2⟩ := Write.apply_agree b _ c d c2 hcd hc2
    obtain ⟨r2, hr2, hagree⟩ := WriteJSONKeys.overwriteAll_agree deps b l n2 d2 r1
      (agree_trans b _ _ _ hswap hcd2) hrest
    refine ⟨r2, ?_, hagree⟩
    rw [WriteJSONKeys.overwriteAll_cons]
    refine ⟨d, by rw [WriteJSONKeys.overwrite_eq]; exact hd, ?_⟩
    rw [WriteJSONKeys.overwriteAll_cons]
    exact ⟨d2, by rw [WriteJSONKeys.overwrite_eq]; exact hd2, hr2⟩
  | @trans l1 l2 l3 h12 _ ih1 ih2 =>
    intro hnd hcount e1 e2 r1 h hr
    have hnd2 : (l2.map Prod.fst).Nodup := (h12.map Prod.fst).nodup_iff.mp hnd
    have hcount2 : b = true →
        l2.countP (fun e => WriteJSONKeys.writesError deps e.1 e.2) ≤ 1 := by
      intro hb
      rw [← h12.countP_eq]
      exact hcount hb
    obtain ⟨m, hm, h1m⟩ := ih1 hnd hcount e1 e2 r1 h hr
    obtain ⟨r2, hr2, hm2⟩ := ih2 hnd2 hcount2 e2 e2 m (agree_refl b e2) hm
    exact ⟨r2, hr2, agree_trans b _ _ _ h1m hm2⟩

/-- C27, as amended: with `overwriteKeys` true, if the call returns without panic
when the entries of `keys` are visited in one order, it returns without panic
when they are visited in any other order, with the same timestamp, the same
metadata and the same value of every field other than `error`; the field
`error` is the same too when at most one entry of `keys` writes it. -/
theorem WriteJSONKeys_order (deps : Deps) (event : Event) (keys keys2 : List (String × Value))
    (written : Event) (hperm : keys.Perm keys2) (hnodup : (keys.map Prod.fst).Nodup)
    (hok : WriteJSONKeys deps event keys true = .ok written) :
    ∃ written2, WriteJSONKeys deps event keys2 true = .ok written2 ∧
      written.Timestamp = written2.Timestamp ∧
      written.Meta = written2.Meta ∧
      (∀ k, k ≠ "error" → mapGet written.Fields k = mapGet written2.Fields k) ∧
      (keys.countP (fun e => WriteJSONKeys.writesError deps e.1 e.2) ≤ 1 →
        ∀ k, mapGet written.Fields k = mapGet written2.Fields k) := by
  have hw : ∀ l, WriteJSONKeys deps event l true = WriteJSONKeys.overwriteAll deps l event := by
    intro l
    simp [WriteJSONKeys]
  rw [hw] at hok
  obtain ⟨r2, hr2, hf⟩ := WriteJSONKeys.perm_agree deps false keys keys2 hperm hnodup
    (fun h => absurd h (by decide)) event event written (agree_refl false event) hok
  refine ⟨r2, by rw [hw]; exact hr2, hf.1, hf.2.1, fun k hk => hf.2.2 k (Or.inr hk), ?_⟩
  intro hcount k
  obtain ⟨r3, hr3, ht⟩ := WriteJSONKeys.perm_agree deps true keys keys2 hperm hnodup
    (fun _ => hcount) event event written (agree_refl true event) hok
  have h23 : r3 = r2 := by
    rw [hr3] at hr2
    exact Except.ok.inj hr2
  rw [← h23]
  exact ht.2.2 k (Or.inl rfl)

/-- C27, witness: an event without metadata, a plain field and a valid type,
visited in both orders. -/
theorem WriteJSONKeys_order_witness :
    ∃ written2, WriteJSONKeys exampleDeps mockEvent
        [("type", .str "log"), ("a", .int 1)] true = .ok written2 ∧
      mapGet written2.Fields "type" = some (.str "log") ∧
      mapGet written2.Fields "a" = some (.int 1) ∧
      mapGet written2.Fields "error" = none := by
  obtain ⟨w2, hw2, _, _, _, hall⟩ := WriteJSONKeys_order exampleDeps mockEvent
    [("a", .int 1), ("type", .str "log")] [("type", .str "log"), ("a", .int 1)]
    { mockEvent with
      Fields := mapSet (mapSet mockEvent.Fields "a" (.int 1)) "type" (.str "log") }
    (List.Perm.swap _ _ _) (by decide) rfl
  exact ⟨w2, hw2, (hall (by decide) "type").symm.trans rfl,
    (hall (by decide) "a").symm.trans rfl, (hall (by decide) "error").symm.trans rfl⟩

/-- C27, counterexample: on an event as mockbeat publishes it, the entries
`@timestamp`, which is not a string, and `type`, which starts with an
underscore, both write the field `error`, and the message left in it is that of
the entry visited last.  On the same event, whose metadata is the nil map, an
`@metadata` entry panics, and the plain field `a` is written or not according
to whether it is visited before. -/
theorem WriteJSONKeys_order_counterexample :
    List.Perm [("@timestamp", Value.int 5), ("type", Value.str "_x")]
      [("type", Value.str "_x"), ("@timestamp", Value.int 5)] ∧
    (∃ w1 w2,
      WriteJSONKeys exampleDeps mockEvent
        [("@timestamp", .int 5), ("type", .str "_x")] true = .ok w1 ∧
      WriteJSONKeys exampleDeps mockEvent
        [("type", .str "_x"), ("@timestamp", .int 5)] true = .ok w2 ∧
      mapGet w1.Fields "error" =
        some (createJSONError "type not overwritten (invalid value [_x])") ∧
      mapGet w2.Fields "error" =
        some (createJSONError "@timestamp not overwritten (not string)") ∧
      mapGet w1.Fields "error" ≠ mapGet w2.Fields "error") ∧
    (∃ left1 left2,
      WriteJSONKeys exampleDeps mockEvent
        [("a", .int 1), ("@metadata", .strMap [("x", "y")])] true = .error left1 ∧
      WriteJSONKeys exampleDeps mockEvent
        [("@metadata", .strMap [("x", "y")]), ("a", .int 1)] true = .error left2 ∧
      mapGet left1.Fields "a" = some (.int 1) ∧
      mapGet left2.Fields "a" = none) := by
  refine ⟨List.Perm.swap _ _ _, ⟨_, _, rfl, rfl, rfl, rfl, ?_⟩, ⟨_, _, rfl, rfl, rfl, rfl⟩⟩
  intro h
  have h2 : (some (createJSONError "type not overwritten (invalid value [_x])") :
      Option Value) = some (createJSONError "@timestamp not overwritten (not string)") := h
  simp only [createJSONError, Option.some.injEq, Value.obj.injEq, List.cons.injEq,
    Prod.mk.injEq, Value.str.injEq] at h2
  exact absurd h2.1.2 (by decide)

end jsontransform
